import Mathlib

/-!
Verification development for the `claude_teams` coordination substrate.

The definitions below are a shallow embedding of the Python sources:
`tasks.py` (task dependency engine), `messaging.py` (inbox handling),
`teams.py` (team registry), `spawner.py` (color assignment / registration)
and the `shutdown_response` branch of `server.py`.  A team's task directory
is modelled as an association list from file stem to parsed task file;
the advisory file lock serialises each operation, so an operation is a
function from directory state to directory state.
-/

namespace ClaudeTeams

/-- Task file contents, mirroring `models.TaskFile`.  `metadata` is an
association list standing for the JSON object; `none` models the key being
absent on disk (pydantic serialises with `exclude_none`). -/
structure TaskFile where
  id : String
  subject : String
  description : String
  active_form : String
  status : String
  blocks : List String
  blocked_by : List String
  owner : Option String
  metadata : Option (List (String × String))
deriving DecidableEq, Repr

/-- A team's `tasks/<team>/` directory: file stem paired with the parsed
task file.  Real directories have unique file names, which theorems assume
as a `Nodup` hypothesis on the keys. -/
abbrev TeamDir := List (String × TaskFile)

/-- Read `<tid>.json` from the directory; `none` models a missing file. -/
def readTask (d : TeamDir) (tid : String) : Option TaskFile :=
  match d with
  | [] => none
  | (k, t) :: rest => if k = tid then some t else readTask rest tid

/-- Write `<tid>.json` (create or overwrite), as `Path.write_text` does. -/
def writeTask (d : TeamDir) (tid : String) (t : TaskFile) : TeamDir :=
  match d with
  | [] => [(tid, t)]
  | (k, u) :: rest => if k = tid then (k, t) :: rest else (k, u) :: writeTask rest tid t

/-- Remove `<tid>.json`, as `Path.unlink` does. -/
def unlinkTask (d : TeamDir) (tid : String) : TeamDir :=
  d.filter (fun kv => kv.1 ≠ tid)

def dirKeys (d : TeamDir) : List String := d.map Prod.fst

/-- Acceptance of a file stem by Python `int()`, used by the `glob`
loops in `update_task` (`int(f.stem)` inside `try`).  Modelled as an
optional sign followed by one or more ASCII digits. -/
def pyNumericId (s : String) : Bool :=
  match s.data with
  | [] => false
  | c :: rest =>
    if c = '-' || c = '+' then !rest.isEmpty && rest.all Char.isDigit
    else (c :: rest).all Char.isDigit

/-- The `_STATUS_ORDER` dict; `none` models a `KeyError` / missing key. -/
def statusOrder (s : String) : Option Nat :=
  if s = "pending" then some 0
  else if s = "in_progress" then some 1
  else if s = "completed" then some 2
  else none

/-- Pending dependency edges accumulated during validation
(`pending_edges : dict[str, set[str]]`).  The Python value is a dict of
sets; sets are modelled as duplicate-free lists (set iteration order is
unspecified in Python, so only membership may matter to results). -/
abbrev PendingEdges := List (String × List String)

def pendingLookup (p : PendingEdges) (k : String) : List String :=
  match p with
  | [] => []
  | (k2, v) :: rest => if k2 = k then v else pendingLookup rest k

def addPendingEdge (p : PendingEdges) (k v : String) : PendingEdges :=
  match p with
  | [] => [(k, [v])]
  | (k2, vs) :: rest =>
    if k2 = k then (k2, if v ∈ vs then vs else vs ++ [v]) :: rest
    else (k2, vs) :: addPendingEdge rest k v

/-- Breadth-first walk of `_would_create_cycle`, with explicit fuel in
place of Python's unbounded `while queue:` loop.  Each step pops one
queue element; `visited` grows exactly when a new node is processed. -/
def wccAux (d : TeamDir) (p : PendingEdges) (fromId : String) :
    Nat → List String → List String → Bool
  | 0, _, _ => false
  | _ + 1, _, [] => false
  | fuel + 1, visited, current :: rest =>
    if current = fromId then true
    else if current ∈ visited then wccAux d p fromId fuel visited rest
    else
      let visited2 := visited ++ [current]
      let diskNbrs :=
        match readTask d current with
        | some t => t.blocked_by.filter (fun x => x ∉ visited2)
        | none => []
      let pendNbrs := (pendingLookup p current).filter (fun x => x ∉ visited2)
      wccAux d p fromId fuel visited2 (rest ++ diskNbrs ++ pendNbrs)

/-- Fuel bound for the BFS: generous upper bound on the number of queue
pops Python can perform (each of the at most `n` distinct processed nodes
enqueues at most the total edge count, plus the initial element). -/
def cycleFuel (d : TeamDir) (p : PendingEdges) : Nat :=
  let n := d.length + p.length + 2
  let m := d.foldl (fun acc kv => acc + kv.2.blocked_by.length) 0
    + p.foldl (fun acc kv => acc + kv.2.length) 0 + 2
  (n + m) * (n + m) + 1

/-- Mirror of `_would_create_cycle(team_dir, from_id, to_id, pending_edges)`:
true when making `fromId` blocked by `toId` would create a cycle. -/
def would_create_cycle (d : TeamDir) (fromId toId : String) (p : PendingEdges) : Bool :=
  wccAux d p fromId (cycleFuel d p) [] [toId]

/-- Arguments of `update_task`.  `none` models a Python `None`. -/
structure UpdateArgs where
  status : Option String := none
  owner : Option String := none
  subject : Option String := none
  description : Option String := none
  active_form : Option String := none
  add_blocks : Option (List String) := none
  add_blocked_by : Option (List String) := none
  metadata : Option (List (String × Option String)) := none
deriving DecidableEq, Repr

/-- Python truthiness of an optional list argument: `if add_blocks:` is
false both for `None` and for an empty list. -/
def truthyList (o : Option (List String)) : List String :=
  match o with
  | none => []
  | some l => l

def msgSelfBlock (tid : String) : String :=
  "Task " ++ tid ++ " cannot block itself"

def msgSelfBlockedBy (tid : String) : String :=
  "Task " ++ tid ++ " cannot be blocked by itself"

/-- Reference validation loop shared by `add_blocks` and `add_blocked_by`:
first failing entry in list order wins. -/
def checkRefs (d : TeamDir) (tid : String) (selfMsg : String) :
    List String → Option String
  | [] => none
  | b :: rest =>
    if b = tid then some selfMsg
    else if (readTask d b).isNone then some ("Referenced task " ++ b ++ " does not exist")
    else checkRefs d tid selfMsg rest

/-- Build `pending_edges` exactly as phase 2 does: every `add_blocks`
entry `b` gains the edge `b` blocked-by `tid`, every `add_blocked_by`
entry `b` records `tid` blocked-by `b`. -/
def buildPending (tid : String) (ab abb : List String) : PendingEdges :=
  let p1 := ab.foldl (fun acc b => addPendingEdge acc b tid) []
  abb.foldl (fun acc b => addPendingEdge acc tid b) p1

def msgCircBlock (tid b : String) : String :=
  "Adding block " ++ tid ++ " -> " ++ b ++ " would create a circular dependency"

def msgCircBlockedBy (tid b : String) : String :=
  "Adding dependency " ++ tid ++ " blocked_by " ++ b ++ " would create a circular dependency"

def checkCyclesBlocks (d : TeamDir) (tid : String) (p : PendingEdges) :
    List String → Option String
  | [] => none
  | b :: rest =>
    if would_create_cycle d b tid p then some (msgCircBlock tid b)
    else checkCyclesBlocks d tid p rest

def checkCyclesBlockedBy (d : TeamDir) (tid : String) (p : PendingEdges) :
    List String → Option String
  | [] => none
  | b :: rest =>
    if would_create_cycle d tid b p then some (msgCircBlockedBy tid b)
    else checkCyclesBlockedBy d tid p rest

/-- Effective blockers for the status check: `set(task.blocked_by)`
updated with `add_blocked_by`.  The Python set is modelled as the on-disk
list followed by the freshly added ids not already present; the set's
iteration order is unspecified in Python, so only membership matters. -/
def effectiveBlockedBy (task : TaskFile) (abb : List String) : List String :=
  task.blocked_by ++ abb.filter (fun b => b ∉ task.blocked_by)

/-- Blocker completeness loop: a blocker whose file is missing on disk is
skipped (the `if blocker_path.exists()` guard). -/
def checkBlockers (d : TeamDir) (s : String) : List String → Option String
  | [] => none
  | b :: rest =>
    match readTask d b with
    | some bt =>
      if bt.status ≠ "completed" then
        some ("Cannot set status to " ++ s ++ ": blocked by task " ++ b
          ++ " (status: " ++ bt.status ++ ")")
      else checkBlockers d s rest
    | none => checkBlockers d s rest

/-- Status validation of phase 2 (monotone rank plus blocker check). -/
def checkStatusErr (d : TeamDir) (task : TaskFile) (a : UpdateArgs) : Option String :=
  match a.status with
  | none => none
  | some s =>
    if s = "deleted" then none
    else
      match statusOrder task.status with
      | none => some ("KeyError: " ++ task.status)
      | some cur =>
        match statusOrder s with
        | none => some ("Invalid status: " ++ s)
        | some new =>
          if new < cur then
            some ("Cannot transition from " ++ task.status ++ " to " ++ s)
          else
            let eff := effectiveBlockedBy task (truthyList a.add_blocked_by)
            if (s = "in_progress" || s = "completed") && !eff.isEmpty then
              checkBlockers d s eff
            else none

def orErr (a b : Option String) : Option String :=
  match a with
  | some e => some e
  | none => b

/-- Whole of phase 2: validation against disk state plus pending edges,
in source order, with no disk writes. -/
def validatePhase (d : TeamDir) (tid : String) (task : TaskFile) (a : UpdateArgs) :
    Option String :=
  let ab := truthyList a.add_blocks
  let abb := truthyList a.add_blocked_by
  let pending := buildPending tid ab abb
  orErr (checkRefs d tid (msgSelfBlock tid) ab)
    (orErr (checkRefs d tid (msgSelfBlockedBy tid) abb)
      (orErr (checkCyclesBlocks d tid pending ab)
        (orErr (checkCyclesBlockedBy d tid pending abb)
          (checkStatusErr d task a))))

/-- Staged sibling writes of phase 3 (`pending_writes : dict[Path, TaskFile]`);
same shape as a directory, and dict assignment is position-preserving upsert. -/
abbrev PendingWrites := TeamDir

/-- Simple field assignments at the start of phase 3. -/
def applyFieldArgs (task : TaskFile) (a : UpdateArgs) : TaskFile :=
  let t1 := match a.subject with | some v => { task with subject := v } | none => task
  let t2 := match a.description with | some v => { t1 with description := v } | none => t1
  let t3 := match a.active_form with | some v => { t2 with active_form := v } | none => t2
  match a.owner with | some v => { t3 with owner := some v } | none => t3

/-- Phase-3 loop for `add_blocks`: append to `task.blocks` when absent and
stage the reciprocal `blocked_by` update on the sibling.  Reading a sibling
that disappeared raises (`FileNotFoundError`), modelled as an error. -/
def applyAddBlocks (d : TeamDir) (tid : String) :
    List String → TaskFile → PendingWrites → Except String (TaskFile × PendingWrites)
  | [], task, pw => .ok (task, pw)
  | b :: rest, task, pw =>
    let task2 := if b ∈ task.blocks then task else { task with blocks := task.blocks ++ [b] }
    match (match readTask pw b with | some o => some o | none => readTask d b) with
    | none => .error ("FileNotFoundError: " ++ b)
    | some other =>
      let other2 :=
        if tid ∈ other.blocked_by then other
        else { other with blocked_by := other.blocked_by ++ [tid] }
      applyAddBlocks d tid rest task2 (writeTask pw b other2)

/-- Phase-3 loop for `add_blocked_by`, symmetric to `applyAddBlocks`. -/
def applyAddBlockedBy (d : TeamDir) (tid : String) :
    List String → TaskFile → PendingWrites → Except String (TaskFile × PendingWrites)
  | [], task, pw => .ok (task, pw)
  | b :: rest, task, pw =>
    let task2 :=
      if b ∈ task.blocked_by then task
      else { task with blocked_by := task.blocked_by ++ [b] }
    match (match readTask pw b with | some o => some o | none => readTask d b) with
    | none => .error ("FileNotFoundError: " ++ b)
    | some other =>
      let other2 :=
        if tid ∈ other.blocks then other
        else { other with blocks := other.blocks ++ [tid] }
      applyAddBlockedBy d tid rest task2 (writeTask pw b other2)

def metaErase (cur : List (String × String)) (k : String) : List (String × String) :=
  cur.filter (fun kv => kv.1 ≠ k)

def metaSet (cur : List (String × String)) (k v : String) : List (String × String) :=
  match cur with
  | [] => [(k, v)]
  | (k2, v2) :: rest =>
    if k2 = k then (k2, v) :: rest else (k2, v2) :: metaSet rest k v

def metaMerge (cur : List (String × String)) :
    List (String × Option String) → List (String × String)
  | [] => cur
  | (k, none) :: rest => metaMerge (metaErase cur k) rest
  | (k, some v) :: rest => metaMerge (metaSet cur k v) rest

/-- Metadata merge of phase 3: `None` values remove keys, the result is
stored as absent when it ends up empty. -/
def applyMetadata (task : TaskFile) (a : UpdateArgs) : TaskFile :=
  match a.metadata with
  | none => task
  | some upd =>
    let cur := task.metadata.getD []
    let merged := metaMerge cur upd
    { task with metadata := if merged.isEmpty then none else some merged }

/-- Cascade when the new status is `completed`: strip `tid` from every
other numeric-stem task's `blocked_by` (reading staged values first). -/
def completedCascade (tid : String) (pw : PendingWrites) : TeamDir → PendingWrites
  | [] => pw
  | (k, t) :: rest =>
    if !pyNumericId k || k = tid then completedCascade tid pw rest
    else
      let other := (readTask pw k).getD t
      if tid ∈ other.blocked_by then
        completedCascade tid
          (writeTask pw k { other with blocked_by := other.blocked_by.erase tid }) rest
      else completedCascade tid pw rest

/-- Both strips of the `deleted` loop body applied to one task value
(`list.remove` removes the first occurrence, conditioned on membership). -/
def deletedStrip (tid : String) (other : TaskFile) : TaskFile :=
  let o1 :=
    if tid ∈ other.blocked_by then
      { other with blocked_by := other.blocked_by.erase tid }
    else other
  if tid ∈ o1.blocks then { o1 with blocks := o1.blocks.erase tid } else o1

/-- One iteration of the `deleted` glob loop: skip non-numeric stems and
the task itself, otherwise read the staged-or-disk value and stage the
stripped value when anything changed. -/
def deletedCascadeStep (tid : String) (pw : PendingWrites) (k : String) (t : TaskFile) :
    PendingWrites :=
  if !pyNumericId k || k = tid then pw
  else
    let other := (readTask pw k).getD t
    if tid ∈ other.blocked_by ∨ tid ∈ other.blocks then
      writeTask pw k (deletedStrip tid other)
    else pw

/-- Cascade when the new status is `deleted`: strip `tid` from every other
numeric-stem task's `blocked_by` and `blocks`, staging only changed files. -/
def deletedCascade (tid : String) (pw : PendingWrites) : TeamDir → PendingWrites
  | [] => pw
  | (k, t) :: rest => deletedCascade tid (deletedCascadeStep tid pw k t) rest

/-- A task value with `tid` removed from both edge lists (first
occurrence, as `list.remove` does; identity when absent). -/
def stripBoth (tid : String) (t : TaskFile) : TaskFile :=
  { t with blocks := t.blocks.erase tid, blocked_by := t.blocked_by.erase tid }

/-- File system effects of phase 4, in execution order. -/
inductive FsOp where
  | write (tid : String) (t : TaskFile)
  | unlink (tid : String)
deriving DecidableEq, Repr

def applyOp (d : TeamDir) : FsOp → TeamDir
  | .write k t => writeTask d k t
  | .unlink k => unlinkTask d k

def applyOps (d : TeamDir) (ops : List FsOp) : TeamDir :=
  ops.foldl applyOp d

def pwOps (pw : PendingWrites) : List FsOp :=
  pw.map (fun kv => FsOp.write kv.1 kv.2)

/-- Mirror of `tasks.update_task`.  The lock makes the call a single
read–validate–mutate–write transaction; every `raise` in the source occurs
before the first disk write, so an error carries no file system effects.
On success the returned `FsOp` list is exactly the phase-4 write sequence
in execution order. -/
def update_task (d : TeamDir) (tid : String) (a : UpdateArgs) :
    Except String (TaskFile × List FsOp) :=
  match readTask d tid with
  | none => .error ("FileNotFoundError: " ++ tid)
  | some task =>
    match validatePhase d tid task a with
    | some e => .error e
    | none =>
      let ab := truthyList a.add_blocks
      let abb := truthyList a.add_blocked_by
      let task1 := applyFieldArgs task a
      match applyAddBlocks d tid ab task1 [] with
      | .error e => .error e
      | .ok (task2, pw1) =>
        match applyAddBlockedBy d tid abb task2 pw1 with
        | .error e => .error e
        | .ok (task3, pw2) =>
          let task4 := applyMetadata task3 a
          match a.status with
          | some s =>
            if s = "deleted" then
              let task5 := { task4 with status := "deleted" }
              let pw3 := deletedCascade tid pw2 d
              .ok (task5, pwOps pw3 ++ [FsOp.unlink tid])
            else
              let task5 := { task4 with status := s }
              let pw3 := if s = "completed" then completedCascade tid pw2 d else pw2
              .ok (task5, FsOp.write tid task5 :: pwOps pw3)
          | none => .ok (task4, FsOp.write tid task4 :: pwOps pw2)

/-- Directory state after a call to `update_task`: a raised error leaves
every file as it was (all raises precede all writes in the source). -/
def update_task_run (d : TeamDir) (tid : String) (a : UpdateArgs) : TeamDir :=
  match update_task d tid a with
  | .ok r => applyOps d r.2
  | .error _ => d

/-! # Inbox model (`messaging.read_inbox`)

An inbox file is a JSON array of messages; `none` models a missing file.
Python lists hold object references: the result slice of `read_inbox`
aliases the entries of `all_msgs`, so the flip loop is modelled on cells
addressed by index, with the result slice a list of indices. -/

/-- Mirror of `models.InboxMessage`. -/
structure InboxMessage where
  from_ : String
  text : String
  timestamp : String
  read : Bool
  summary : Option String
  color : Option String
deriving DecidableEq, Repr

def setRead (m : InboxMessage) : InboxMessage := { m with read := true }

/-- Indices of the result slice: all valid indices, or only the unread
ones when `unread_only` is set. -/
def selectIdx (unread_only : Bool) (all : List InboxMessage) : List Nat :=
  (List.range all.length).filter fun i =>
    match all[i]? with
    | some m => !unread_only || !m.read
    | none => false

/-- Body of `for m in all_msgs: if m in result: m.read = True` for a
single index: Python `in` compares by field equality against the current
values of the aliased result objects. -/
def flipStep (all : List InboxMessage) (residx : List Nat) (i : Nat) : List InboxMessage :=
  match all[i]? with
  | none => all
  | some m =>
    if residx.any (fun j => all[j]? = some m) then all.set i (setRead m)
    else all

def flipGo (residx : List Nat) : List InboxMessage → List Nat → List InboxMessage
  | acc, [] => acc
  | acc, i :: todo => flipGo residx (flipStep acc residx i) todo

def flipLoop (all : List InboxMessage) (residx : List Nat) : List InboxMessage :=
  flipGo residx all (List.range all.length)

/-- Mirror of `messaging.read_inbox` for `mark_as_read = True` (the locked
branch).  Returns the value returned to the caller, the file contents
afterwards, and whether the file was rewritten.  The returned messages are
the result-slice objects as they stand after the flip loop, because the
slice aliases `all_msgs`. -/
def read_inbox_mark (inbox : Option (List InboxMessage)) (unread_only : Bool) :
    List InboxMessage × Option (List InboxMessage) × Bool :=
  match inbox with
  | none => ([], none, false)
  | some all =>
    let residx := selectIdx unread_only all
    if residx.isEmpty then (residx.filterMap (fun i => all[i]?), some all, false)
    else
      let final := flipLoop all residx
      (residx.filterMap (fun i => final[i]?), some final, true)

/-- Mirror of `messaging.read_inbox` for `mark_as_read = False` (the
lock-free read-only branch). -/
def read_inbox_plain (inbox : Option (List InboxMessage)) (unread_only : Bool) :
    List InboxMessage :=
  match inbox with
  | none => []
  | some all => if unread_only then all.filter (fun m => !m.read) else all

/-! # Team registry (`teams.py`) and member model (`models.py`) -/

/-- Mirror of `models.LeadMember`. -/
structure LeadMember where
  agent_id : String
  name : String
  agent_type : String
  model : String
  joined_at : Nat
  tmux_pane_id : String
  cwd : String
  subscriptions : List String
deriving DecidableEq, Repr

/-- Mirror of `models.TeammateMember`. -/
structure TeammateMember where
  agent_id : String
  name : String
  agent_type : String
  model : String
  prompt : String
  color : String
  plan_mode_required : Bool
  joined_at : Nat
  tmux_pane_id : String
  cwd : String
  subscriptions : List String
  backend_type : String
  opencode_session_id : Option String
  is_active : Bool
deriving DecidableEq, Repr

/-- The discriminated `MemberUnion`. -/
inductive Member where
  | lead (m : LeadMember)
  | teammate (m : TeammateMember)
deriving DecidableEq, Repr

def Member.name : Member → String
  | .lead m => m.name
  | .teammate m => m.name

def Member.isTeammate : Member → Bool
  | .lead _ => false
  | .teammate _ => true

/-- Mirror of `models.TeamConfig`. -/
structure TeamConfig where
  name : String
  description : String
  created_at : Nat
  lead_agent_id : String
  lead_session_id : String
  members : List Member
deriving DecidableEq, Repr

/-- Acceptance by `re.match` against `^[A-Za-z0-9_-]+$`: one or more
characters from the ASCII class.  Python's `$` also matches just before a
single trailing newline, which this definition reproduces. -/
def nameCharOk (c : Char) : Bool :=
  c.isAlpha || c.isDigit || c = '_' || c = '-'

def nameCoreListOk (cs : List Char) : Bool :=
  !cs.isEmpty && cs.all nameCharOk

def nameCoreOk (s : String) : Bool :=
  nameCoreListOk s.data

def pyNameMatches (s : String) : Bool :=
  nameCoreOk s || ((s.data.getLast? == some '\n') && nameCoreListOk s.data.dropLast)

/-- Relevant slice of the file system for the team registry. -/
structure FsState where
  teamDirs : List String
  taskDirs : List String
  taskLocks : List String
  configs : List (String × TeamConfig)
deriving DecidableEq, Repr

/-- A `mkdir(parents=True, exist_ok=True)` (also used for `touch`):
idempotent creation. -/
def mkdirIdem (dirs : List String) (name : String) : List String :=
  if name ∈ dirs then dirs else dirs ++ [name]

def configLookup (cs : List (String × TeamConfig)) (name : String) : Option TeamConfig :=
  match cs with
  | [] => none
  | (k, c) :: rest => if k = name then some c else configLookup rest name

def configSet (cs : List (String × TeamConfig)) (name : String) (c : TeamConfig) :
    List (String × TeamConfig) :=
  match cs with
  | [] => [(name, c)]
  | (k, c2) :: rest =>
    if k = name then (k, c) :: rest else (k, c2) :: configSet rest name c

/-- Mirror of `teams.create_team`.  `now_ms` and `cwd` stand for
`time.time()` and `Path.cwd()`.  The final `config_path.write_text`
creates or overwrites `config.json`; the source performs no existence
check on it. -/
def create_team (st : FsState) (name session_id description lead_model : String)
    (now_ms : Nat) (cwd : String) : Except String (FsState × TeamConfig) :=
  if !pyNameMatches name then
    .error ("Invalid team name: " ++ name ++ ". Use only letters, numbers, hyphens, underscores.")
  else if name.length > 64 then
    .error ("Team name too long (" ++ toString name.length ++ " chars, max 64)")
  else
    let st1 : FsState :=
      { st with
        teamDirs := mkdirIdem st.teamDirs name
        taskDirs := mkdirIdem st.taskDirs name
        taskLocks := mkdirIdem st.taskLocks name }
    let lead : LeadMember :=
      { agent_id := "team-lead@" ++ name, name := "team-lead", agent_type := "team-lead"
        model := lead_model, joined_at := now_ms, tmux_pane_id := "", cwd := cwd
        subscriptions := [] }
    let config : TeamConfig :=
      { name := name, description := description, created_at := now_ms
        lead_agent_id := "team-lead@" ++ name, lead_session_id := session_id
        members := [Member.lead lead] }
    .ok ({ st1 with configs := configSet st1.configs name config }, config)

/-! # Spawner (`spawner.py`): color assignment and member registration -/

def COLOR_PALETTE : List String :=
  ["blue", "green", "yellow", "purple", "orange", "pink", "cyan", "red"]

def teammatesOf (cfg : TeamConfig) : List TeammateMember :=
  cfg.members.filterMap fun m =>
    match m with
    | .teammate t => some t
    | .lead _ => none

/-- Count of `isinstance(m, TeammateMember)` members. -/
def teammateCount (cfg : TeamConfig) : Nat :=
  (cfg.members.filter Member.isTeammate).length

/-- Mirror of `spawner.assign_color`. -/
def assign_color (cfg : TeamConfig) : String :=
  COLOR_PALETTE.getD (teammateCount cfg % COLOR_PALETTE.length) ""

/-- Mirror of `teams.add_member`: reject duplicate names, append. -/
def add_member (cfg : TeamConfig) (m : TeammateMember) : Except String TeamConfig :=
  if m.name ∈ cfg.members.map Member.name then
    .error ("Member " ++ m.name ++ " already exists in team " ++ cfg.name)
  else .ok { cfg with members := cfg.members ++ [Member.teammate m] }

/-- Inputs of one spawn relevant to the team config. -/
structure SpawnReq where
  name : String
  prompt : String
  model : String
  subagent_type : String
  cwd : String
  plan_mode_required : Bool
  backend_type : String
  opencode_session_id : Option String
  joined_at : Nat
deriving DecidableEq, Repr

/-- Config effect of a successful `spawner.spawn_teammate`: name
validation, color assignment and member registration (steps 1, 4, 5).
Binary discovery, the opencode session and the tmux launch are external
collaborators; a failure there rolls the member back, so a *successful*
spawn is exactly one `spawn_register` success (the later pane-id rewrite
does not change names, variants or colors). -/
def spawn_register (cfg : TeamConfig) (r : SpawnReq) : Except String TeamConfig :=
  if !pyNameMatches r.name then
    .error ("Invalid agent name: " ++ r.name ++ ". Use only letters, numbers, hyphens, underscores.")
  else if r.name.length > 64 then
    .error ("Agent name too long (" ++ toString r.name.length ++ " chars, max 64)")
  else if r.name = "team-lead" then
    .error "Agent name team-lead is reserved"
  else
    let color := assign_color cfg
    let member : TeammateMember :=
      { agent_id := r.name ++ "@" ++ cfg.name, name := r.name
        agent_type := r.subagent_type, model := r.model, prompt := r.prompt
        color := color, plan_mode_required := r.plan_mode_required
        joined_at := r.joined_at, tmux_pane_id := "", cwd := r.cwd
        subscriptions := [], backend_type := r.backend_type
        opencode_session_id := r.opencode_session_id, is_active := false }
    add_member cfg member

/-- Fold of successive spawns. -/
def spawnAll (cfg : TeamConfig) : List SpawnReq → Except String TeamConfig
  | [] => .ok cfg
  | r :: rest =>
    match spawn_register cfg r with
    | .error e => .error e
    | .ok cfg2 => spawnAll cfg2 rest

/-! # Member serialization (`models._discriminate_member`)

A serialized member is the JSON object written by
`model_dump(by_alias=True, exclude_none=True)`; `Option` fields model key
presence.  `LeadMember` has no `prompt` field at all, `TeammateMember.prompt`
is a required string, and parsing discriminates on the presence of the
`prompt` key. -/

structure SerializedMember where
  agentId : String
  name : String
  agentType : String
  model : String
  joinedAt : Nat
  tmuxPaneId : String
  cwd : String
  subscriptions : List String
  prompt : Option String
  color : Option String
  planModeRequired : Option Bool
  backendType : Option String
  opencodeSessionId : Option String
  isActive : Option Bool
deriving DecidableEq, Repr

def serializeMember : Member → SerializedMember
  | .lead m =>
    { agentId := m.agent_id, name := m.name, agentType := m.agent_type
      model := m.model, joinedAt := m.joined_at, tmuxPaneId := m.tmux_pane_id
      cwd := m.cwd, subscriptions := m.subscriptions
      prompt := none, color := none, planModeRequired := none
      backendType := none, opencodeSessionId := none, isActive := none }
  | .teammate m =>
    { agentId := m.agent_id, name := m.name, agentType := m.agent_type
      model := m.model, joinedAt := m.joined_at, tmuxPaneId := m.tmux_pane_id
      cwd := m.cwd, subscriptions := m.subscriptions
      prompt := some m.prompt, color := some m.color
      planModeRequired := some m.plan_mode_required
      backendType := some m.backend_type
      opencodeSessionId := m.opencode_session_id
      isActive := some m.is_active }

/-- Mirror of `_discriminate_member` on a serialized dict: tagged
`teammate` exactly when the `prompt` key is present. -/
def discriminateMember (s : SerializedMember) : Bool :=
  s.prompt.isSome

/-- Parse a serialized member through the discriminator: validate as
`TeammateMember` when tagged teammate (required `prompt` and `color`,
defaults for the optional fields), as `LeadMember` otherwise. -/
def parseMember (s : SerializedMember) : Option Member :=
  if discriminateMember s then
    match s.prompt, s.color with
    | some prompt, some color =>
      some (.teammate
        { agent_id := s.agentId, name := s.name, agent_type := s.agentType
          model := s.model, prompt := prompt, color := color
          plan_mode_required := s.planModeRequired.getD false
          joined_at := s.joinedAt, tmux_pane_id := s.tmuxPaneId, cwd := s.cwd
          subscriptions := s.subscriptions
          backend_type := s.backendType.getD "claude"
          opencode_session_id := s.opencodeSessionId
          is_active := s.isActive.getD false })
    | _, _ => none
  else
    some (.lead
      { agent_id := s.agentId, name := s.name, agent_type := s.agentType
        model := s.model, joined_at := s.joinedAt, tmux_pane_id := s.tmuxPaneId
        cwd := s.cwd, subscriptions := s.subscriptions })

/-! # Server `send_message`, branch `type == "shutdown_response"`

Inbox messages carrying a structured payload store its JSON serialization
in `text`; the body is modelled as a tagged value, so that the payload a
text parses to is explicit. -/

/-- Mirror of `models.ShutdownApproved`. -/
structure ShutdownApprovedP where
  request_id : String
  from_ : String
  timestamp : String
  pane_id : String
  backend_type : String
  session_id : Option String
deriving DecidableEq, Repr

inductive MessageBody where
  | plain (text : String)
  | shutdownApproved (p : ShutdownApprovedP)
deriving DecidableEq, Repr

structure ServerMessage where
  from_ : String
  body : MessageBody
  timestamp : String
  read : Bool
  summary : Option String
  color : Option String
deriving DecidableEq, Repr

/-- First teammate member with the given name (the `for m in
config.members: if isinstance(m, TeammateMember) and m.name == sender`
loop). -/
def findTeammateIn (n : String) : List Member → Option TeammateMember
  | [] => none
  | .teammate t :: rest => if t.name = n then some t else findTeammateIn n rest
  | .lead _ :: rest => findTeammateIn n rest

def findTeammate (cfg : TeamConfig) (n : String) : Option TeammateMember :=
  findTeammateIn n cfg.members

/-- Python truthiness of `approve : bool | None`. -/
def pyTruthy (b : Option Bool) : Bool := b.getD false

/-- Mirror of the `shutdown_response` branch of `server.send_message`:
sender must be an existing teammate; on approve a structured
`shutdown_approved` payload goes to `team-lead`, on reject a plain
message with summary `shutdown_rejected`.  `now` stands for `now_iso()`;
the result is the team-lead inbox after the append plus the result
message string. -/
def send_message_shutdown_response (cfg : TeamConfig)
    (sender content request_id now : String) (approve : Option Bool)
    (leadInbox : List ServerMessage) :
    Except String (List ServerMessage × String) :=
  match findTeammate cfg sender with
  | none => .error ("Sender " ++ sender ++ " is not a teammate in team " ++ cfg.name)
  | some m =>
    if pyTruthy approve then
      let payload : ShutdownApprovedP :=
        { request_id := request_id, from_ := sender, timestamp := now
          pane_id := m.tmux_pane_id, backend_type := m.backend_type
          session_id := m.opencode_session_id }
      .ok (leadInbox ++
        [{ from_ := sender, body := .shutdownApproved payload, timestamp := now
           read := false, summary := none, color := none }],
        "Shutdown approved for request " ++ request_id)
    else
      .ok (leadInbox ++
        [{ from_ := sender
           body := .plain (if content = "" then "Shutdown rejected" else content)
           timestamp := now, read := false, summary := some "shutdown_rejected"
           color := none }],
        "Shutdown rejected for request " ++ request_id)

/-- Reciprocity of one ordered pair of task files:
`a ∈ b.blocked_by ↔ b ∈ a.blocks`. -/
def recipPairB (ia : String) (ta : TaskFile) (ib : String) (tb : TaskFile) : Bool :=
  decide (ia ∈ tb.blocked_by) == decide (ib ∈ ta.blocks)

/-- The spec's graph invariant, decidably, over every pair of files in the
directory. -/
def reciprocalB (d : TeamDir) : Bool :=
  d.all fun x => d.all fun y => recipPairB x.1 x.2 y.1 y.2

/-- The same invariant as a proposition over directory lookups. -/
def Reciprocal (d : TeamDir) : Prop :=
  ∀ a ta b tb, readTask d a = some ta → readTask d b = some tb →
    (a ∈ tb.blocked_by ↔ b ∈ ta.blocks)

/-- The mid-transaction view of the directory during phase 3: the target
task's in-memory value, then the staged sibling writes, then disk. -/
def vlook (d : TeamDir) (tid : String) (t : TaskFile) (pw : PendingWrites)
    (k : String) : Option TaskFile :=
  if k = tid then some t
  else
    match readTask pw k with
    | some o => some o
    | none => readTask d k

/-- Reciprocity of the mid-transaction view. -/
def RecipV (d : TeamDir) (tid : String) (t : TaskFile) (pw : PendingWrites) : Prop :=
  ∀ a ta b tb, vlook d tid t pw a = some ta → vlook d tid t pw b = some tb →
    (a ∈ tb.blocked_by ↔ b ∈ ta.blocks)

/-! # Generic lemmas about the directory / association-list operations -/

def c6oldCfg : ClaudeTeams.TeamConfig :=
  { name := "alpha", description := "old", created_at := 1
    lead_agent_id := "team-lead@alpha", lead_session_id := "sess-1"
    members := [Member.lead
      { agent_id := "team-lead@alpha", name := "team-lead", agent_type := "team-lead"
        model := "m0", joined_at := 1, tmux_pane_id := "", cwd := "/w"
        subscriptions := [] }] }

def c6st : FsState :=
  { teamDirs := ["alpha"], taskDirs := ["alpha"], taskLocks := ["alpha"]
    configs := [("alpha", c6oldCfg)] }

/-- Every teammate's color agrees with its position in the palette. -/
def colorsOk (ts : List TeammateMember) : Prop :=
  ∀ i t, ts[i]? = some t → t.color = COLOR_PALETTE.getD (i % COLOR_PALETTE.length) ""

def c7req (n : String) : SpawnReq :=
  { name := n, prompt := "p", model := "sonnet", subagent_type := "general-purpose"
    cwd := "/w", plan_mode_required := false, backend_type := "claude"
    opencode_session_id := none, joined_at := 3 }

def c7cfg : TeamConfig :=
  { name := "c7team", description := "", created_at := 1
    lead_agent_id := "team-lead@c7team", lead_session_id := "s"
    members := [Member.lead
      { agent_id := "team-lead@c7team", name := "team-lead", agent_type := "team-lead"
        model := "m", joined_at := 1, tmux_pane_id := "", cwd := "/w"
        subscriptions := [] }] }

def c9mate : TeammateMember :=
  { agent_id := "worker@c9team", name := "worker", agent_type := "general-purpose"
    model := "sonnet", prompt := "p", color := "blue", plan_mode_required := false
    joined_at := 2, tmux_pane_id := "%42", cwd := "/w", subscriptions := []
    backend_type := "opencode", opencode_session_id := some "ses_oc1"
    is_active := true }

def c9cfg : TeamConfig :=
  { name := "c9team", description := "", created_at := 1
    lead_agent_id := "team-lead@c9team", lead_session_id := "s"
    members := [Member.lead
      { agent_id := "team-lead@c9team", name := "team-lead", agent_type := "team-lead"
        model := "m", joined_at := 1, tmux_pane_id := "", cwd := "/w"
        subscriptions := [] },
      Member.teammate c9mate] }

def c10task : TaskFile :=
  { id := "2", subject := "s", description := "d", active_form := ""
    status := "pending", blocks := [], blocked_by := ["1"], owner := none
    metadata := none }

def c10d : TeamDir := [("2", c10task)]

/-- A message mentions "circular" when that word occurs in it. -/
def MentionsCircular (msg : String) : Prop :=
  ∃ pre post, msg = pre ++ "circular" ++ post

def c2t1 : TaskFile :=
  { id := "1", subject := "s", description := "d", active_form := ""
    status := "pending", blocks := ["2"], blocked_by := [], owner := none
    metadata := none }

def c2t2 : TaskFile :=
  { id := "2", subject := "s", description := "d", active_form := ""
    status := "pending", blocks := [], blocked_by := ["1"], owner := none
    metadata := none }

def c2d : TeamDir := [("1", c2t1), ("2", c2t2)]

def c2args : UpdateArgs := { add_blocks := some ["1"] }

def c3task : TaskFile :=
  { id := "2", subject := "s", description := "d", active_form := ""
    status := "pending", blocks := [], blocked_by := ["1"], owner := none
    metadata := none }

def c3d : TeamDir := [("2", c3task)]

def c3wtask : TaskFile :=
  { id := "3", subject := "s", description := "d", active_form := ""
    status := "pending", blocks := [], blocked_by := [], owner := none
    metadata := none }

def c3wd : TeamDir := [("3", c3wtask)]

def c4t1 : TaskFile :=
  { id := "1", subject := "s", description := "d", active_form := ""
    status := "pending", blocks := ["2"], blocked_by := [], owner := none
    metadata := none }

def c4t2 : TaskFile :=
  { id := "2", subject := "s", description := "d", active_form := ""
    status := "pending", blocks := [], blocked_by := ["1"], owner := none
    metadata := none }

def c4d : TeamDir := [("1", c4t1), ("2", c4t2)]

def c5msg : InboxMessage :=
  { from_ := "team-lead", text := "hello", timestamp := "t0", read := false
    summary := none, color := none }

def c1t1 : TaskFile :=
  { id := "1", subject := "s", description := "d", active_form := ""
    status := "pending", blocks := ["2"], blocked_by := [], owner := none
    metadata := none }

def c1t2 : TaskFile :=
  { id := "2", subject := "s", description := "d", active_form := ""
    status := "pending", blocks := [], blocked_by := ["1"], owner := none
    metadata := none }

def c1d : TeamDir := [("1", c1t1), ("2", c1t2)]

theorem dirKeys_cons (k0 : String) (t0 : TaskFile) (rest : TeamDir) :
    dirKeys ((k0, t0) :: rest) = k0 :: dirKeys rest := rfl

theorem readTask_cons (k0 : String) (t0 : TaskFile) (rest : TeamDir) (k : String) :
    readTask ((k0, t0) :: rest) k = if k0 = k then some t0 else readTask rest k := rfl

theorem readTask_writeTask (d : TeamDir) (tid : String) (t : TaskFile) (k : String) :
    readTask (writeTask d tid t) k = if k = tid then some t else readTask d k := by
  induction d with
  | nil =>
    by_cases h : k = tid
    · simp [writeTask, readTask, h]
    · simp [writeTask, readTask, h, Ne.symm h]
  | cons kv rest ih =>
    obtain ⟨k0, t0⟩ := kv
    by_cases h0 : k0 = tid
    · subst h0
      by_cases h : k0 = k
      · simp [writeTask, readTask_cons, h]
      · simp [writeTask, readTask_cons, h, Ne.symm h]
    · by_cases h : k0 = k
      · subst h
        simp [writeTask, h0, readTask_cons, Ne.symm h0]
      · simp [writeTask, h0, readTask_cons, h, ih]

theorem readTask_unlinkTask (d : TeamDir) (tid k : String) :
    readTask (unlinkTask d tid) k = if k = tid then none else readTask d k := by
  induction d with
  | nil =>
    by_cases h : k = tid <;> simp [unlinkTask, readTask, h]
  | cons kv rest ih =>
    obtain ⟨k0, t0⟩ := kv
    by_cases h0 : k0 = tid
    · subst h0
      have hs : unlinkTask ((k0, t0) :: rest) k0 = unlinkTask rest k0 := by
        simp [unlinkTask]
      rw [hs, ih, readTask_cons]
      by_cases h : k = k0
      · simp [h]
      · simp [h, Ne.symm h]
    · have hs : unlinkTask ((k0, t0) :: rest) tid = (k0, t0) :: unlinkTask rest tid := by
        simp [unlinkTask, h0]
      rw [hs, readTask_cons, ih, readTask_cons]
      by_cases h : k0 = k
      · subst h
        simp [h0]
      · simp [h]

theorem dirKeys_writeTask (d : TeamDir) (tid : String) (t : TaskFile) :
    dirKeys (writeTask d tid t) =
      if tid ∈ dirKeys d then dirKeys d else dirKeys d ++ [tid] := by
  induction d with
  | nil => simp [writeTask, dirKeys]
  | cons kv rest ih =>
    obtain ⟨k0, t0⟩ := kv
    by_cases h0 : k0 = tid
    · subst h0
      simp [writeTask, dirKeys_cons]
    · by_cases hm : tid ∈ dirKeys rest
      · simp [writeTask, h0, dirKeys_cons, hm, ih, Ne.symm h0]
      · simp [writeTask, h0, dirKeys_cons, hm, ih, Ne.symm h0]

theorem dirKeys_writeTask_nodup (d : TeamDir) (tid : String) (t : TaskFile)
    (h : (dirKeys d).Nodup) : (dirKeys (writeTask d tid t)).Nodup := by
  rw [dirKeys_writeTask]
  by_cases hm : tid ∈ dirKeys d
  · simpa [hm]
  · simp only [hm, if_false]
    refine List.Nodup.append h (List.nodup_singleton tid) ?_
    intro a ha hb
    simp at hb
    exact hm (hb ▸ ha)

theorem readTask_mem {d : TeamDir} {k : String} {t : TaskFile}
    (h : readTask d k = some t) : (k, t) ∈ d := by
  induction d with
  | nil => simp [readTask] at h
  | cons kv rest ih =>
    obtain ⟨k0, t0⟩ := kv
    by_cases h0 : k0 = k
    · subst h0
      rw [readTask_cons, if_pos rfl] at h
      injection h with h2
      subst h2
      exact List.mem_cons_self ..
    · rw [readTask_cons, if_neg h0] at h
      exact List.mem_cons_of_mem _ (ih h)

theorem readTask_eq_none {d : TeamDir} {k : String}
    (h : k ∉ dirKeys d) : readTask d k = none := by
  induction d with
  | nil => rfl
  | cons kv rest ih =>
    obtain ⟨k0, t0⟩ := kv
    rw [dirKeys_cons] at h
    simp at h
    rw [readTask_cons, if_neg (Ne.symm h.1)]
    exact ih h.2

theorem readTask_isSome_of_mem {d : TeamDir} {k : String}
    (h : k ∈ dirKeys d) : ∃ t, readTask d k = some t := by
  induction d with
  | nil => simp [dirKeys] at h
  | cons kv rest ih =>
    obtain ⟨k0, t0⟩ := kv
    by_cases h0 : k0 = k
    · exact ⟨t0, by rw [readTask_cons, if_pos h0]⟩
    · rw [dirKeys_cons] at h
      simp [Ne.symm h0] at h
      simpa [readTask_cons, h0] using ih h

theorem mem_readTask {d : TeamDir} {k : String} {t : TaskFile}
    (hnd : (dirKeys d).Nodup) (h : (k, t) ∈ d) : readTask d k = some t := by
  induction d with
  | nil => simp at h
  | cons kv rest ih =>
    obtain ⟨k0, t0⟩ := kv
    rw [dirKeys_cons] at hnd
    rcases List.mem_cons.mp h with he | hm
    · injection he with h1 h2
      subst h1; subst h2
      rw [readTask_cons, if_pos rfl]
    · have hk : k0 ≠ k := by
        rintro rfl
        exact (List.nodup_cons.mp hnd).1 (List.mem_map_of_mem Prod.fst hm)
      rw [readTask_cons, if_neg hk]
      exact ih (List.nodup_cons.mp hnd).2 hm

theorem readTask_applyPW (d : TeamDir) :
    ∀ (pw : PendingWrites), (dirKeys pw).Nodup → ∀ k,
      readTask (applyOps d (pwOps pw)) k =
        match readTask pw k with
        | some v => some v
        | none => readTask d k := by
  intro pw
  induction pw generalizing d with
  | nil => intro _ k; simp [pwOps, applyOps, readTask]
  | cons kv rest ih =>
    intro hnd k
    obtain ⟨k0, v0⟩ := kv
    rw [dirKeys_cons] at hnd
    have hnd2 := List.nodup_cons.mp hnd
    have step : applyOps d (pwOps ((k0, v0) :: rest)) =
        applyOps (writeTask d k0 v0) (pwOps rest) := rfl
    rw [step, ih (writeTask d k0 v0) hnd2.2 k, readTask_cons]
    by_cases h : k0 = k
    · subst h
      have hn : readTask rest k0 = none := readTask_eq_none hnd2.1
      rw [hn, if_pos rfl]
      simp [readTask_writeTask]
    · rw [if_neg h]
      cases hrk : readTask rest k with
      | some v => rfl
      | none =>
        simp only []
        rw [readTask_writeTask, if_neg (Ne.symm h)]

theorem dirKeys_applyPW_nodup (d : TeamDir) :
    ∀ (pw : PendingWrites), (dirKeys d).Nodup →
      (dirKeys (applyOps d (pwOps pw))).Nodup := by
  intro pw
  induction pw generalizing d with
  | nil => intro h; simpa [pwOps, applyOps]
  | cons kv rest ih =>
    intro h
    exact ih (writeTask d kv.1 kv.2) (dirKeys_writeTask_nodup d kv.1 kv.2 h)

theorem dirKeys_unlink_nodup (d : TeamDir) (tid : String)
    (h : (dirKeys d).Nodup) : (dirKeys (unlinkTask d tid)).Nodup := by
  induction d with
  | nil => exact h
  | cons kv rest ih =>
    obtain ⟨k0, t0⟩ := kv
    rw [dirKeys_cons] at h
    have h2 := List.nodup_cons.mp h
    by_cases h0 : k0 = tid
    · have hs : unlinkTask ((k0, t0) :: rest) tid = unlinkTask rest tid := by
        simp [unlinkTask, h0]
      rw [hs]
      exact ih h2.2
    · have hs : unlinkTask ((k0, t0) :: rest) tid = (k0, t0) :: unlinkTask rest tid := by
        simp [unlinkTask, h0]
      rw [hs, dirKeys_cons]
      refine List.nodup_cons.mpr ⟨?_, ih h2.2⟩
      intro hmem
      exact h2.1 (List.map_subset Prod.fst (List.filter_subset' _) hmem)

theorem applyOps_append (d : TeamDir) (ops1 ops2 : List FsOp) :
    applyOps d (ops1 ++ ops2) = applyOps (applyOps d ops1) ops2 :=
  List.foldl_append ..

/-! # C6: `create_team` -/

theorem configLookup_configSet (cs : List (String × TeamConfig)) (n : String)
    (c : TeamConfig) : configLookup (configSet cs n c) n = some c := by
  induction cs with
  | nil => simp [configSet, configLookup]
  | cons kv rest ih =>
    obtain ⟨k0, c0⟩ := kv
    by_cases h : k0 = n <;> simp [configSet, configLookup, h, ih]

theorem mem_mkdirIdem (dirs : List String) (n : String) : n ∈ mkdirIdem dirs n := by
  by_cases h : n ∈ dirs <;> simp [mkdirIdem, h]

/-- C6, counterexample: a team named `alpha` already has a `config.json`
on disk, yet `create_team` succeeds and replaces that config instead of
failing — the source performs no existence check before
`config_path.write_text`. -/
theorem c6_counterexample :
    ∃ st2 cfg, create_team c6st "alpha" "sess-2" "new" "m1" 5 "/w" = .ok (st2, cfg)
      ∧ configLookup c6st.configs "alpha" = some c6oldCfg
      ∧ configLookup st2.configs "alpha" = some cfg
      ∧ cfg ≠ c6oldCfg := by
  refine ⟨_, _, rfl, rfl, ?_, by decide⟩
  exact configLookup_configSet ..

/-- C6, amended: `create_team` fails with an invalid-input error when the
name does not match `^[A-Za-z0-9_-]+$` (Python `re` semantics) or exceeds
64 characters; on a valid name it creates `teams/<name>/`, `tasks/<name>/`
and the task lock (succeeding even if they already exist) and writes a
config whose member list contains exactly one lead member — overwriting
without failure any `config.json` already present for that team. -/
theorem c6_create_team (st : FsState) (name sid descr lm cwd : String) (now : Nat) :
    (pyNameMatches name = false →
      ∃ e, create_team st name sid descr lm now cwd = .error e)
    ∧ (pyNameMatches name = true → name.length > 64 →
      ∃ e, create_team st name sid descr lm now cwd = .error e)
    ∧ (pyNameMatches name = true → name.length ≤ 64 →
      ∃ st2 cfg, create_team st name sid descr lm now cwd = .ok (st2, cfg)
        ∧ name ∈ st2.teamDirs ∧ name ∈ st2.taskDirs ∧ name ∈ st2.taskLocks
        ∧ configLookup st2.configs name = some cfg
        ∧ ∃ l, cfg.members = [Member.lead l] ∧ l.name = "team-lead") := by
  refine ⟨?_, ?_, ?_⟩
  · intro h
    refine ⟨"Invalid team name: " ++ name ++ ". Use only letters, numbers, hyphens, underscores.", ?_⟩
    simp [create_team, h]
  · intro h hlen
    refine ⟨"Team name too long (" ++ toString name.length ++ " chars, max 64)", ?_⟩
    simp [create_team, h, hlen]
  · intro h hlen
    simp only [create_team, h, Bool.not_true, Bool.false_eq_true, if_false,
      Nat.not_lt.mpr hlen]
    exact ⟨_, _, rfl, mem_mkdirIdem .., mem_mkdirIdem .., mem_mkdirIdem ..,
      configLookup_configSet .., _, rfl, rfl⟩

/-- C6 witness: the amended theorem applied to a bad name, an overlong
name and a fresh valid name. -/
theorem c6_witness :
    (pyNameMatches "has space" = false ∧
      ∃ e, create_team c6st "has space" "s" "" "m" 7 "/w" = .error e)
    ∧ (∃ st2 cfg, create_team c6st "beta" "s" "" "m" 7 "/w" = .ok (st2, cfg)
        ∧ "beta" ∈ st2.teamDirs ∧ "beta" ∈ st2.taskDirs ∧ "beta" ∈ st2.taskLocks
        ∧ configLookup st2.configs "beta" = some cfg
        ∧ ∃ l, cfg.members = [Member.lead l] ∧ l.name = "team-lead") :=
  ⟨⟨by decide, (c6_create_team c6st "has space" "s" "" "m" "/w" 7).1 (by decide)⟩,
   (c6_create_team c6st "beta" "s" "" "m" "/w" 7).2.2 (by decide) (by decide)⟩

/-! # C8: member serialization round trip -/

theorem parseMember_serializeMember (m : Member) :
    parseMember (serializeMember m) = some m := by
  cases m with
  | lead l => simp [parseMember, serializeMember, discriminateMember]
  | teammate t => simp [parseMember, serializeMember, discriminateMember]

/-- C8: serializing a `TeamConfig` member list and parsing it back yields
the same members (hence the same variant tags in the same positions), and
a serialized member is discriminated as a Teammate exactly when its
serialized form contains a `prompt` field. -/
theorem c8_roundtrip_discriminant (cfg : TeamConfig) :
    cfg.members.map (fun m => parseMember (serializeMember m)) = cfg.members.map some
    ∧ cfg.members.all
        (fun m => discriminateMember (serializeMember m) == Member.isTeammate m) = true := by
  constructor
  · exact List.map_congr_left fun m _ => parseMember_serializeMember m
  · rw [List.all_eq_true]
    intro m _
    cases m with
    | lead l => simp [discriminateMember, serializeMember, Member.isTeammate]
    | teammate t => simp [discriminateMember, serializeMember, Member.isTeammate]

/-! # C7: color assignment -/

theorem teammatesOf_append_teammate (cfg : TeamConfig) (t : TeammateMember) :
    teammatesOf { cfg with members := cfg.members ++ [Member.teammate t] } =
      teammatesOf cfg ++ [t] := by
  simp [teammatesOf]

theorem teammateCount_eq_length (cfg : TeamConfig) :
    teammateCount cfg = (teammatesOf cfg).length := by
  unfold teammateCount teammatesOf
  induction cfg.members with
  | nil => rfl
  | cons m rest ih =>
    cases m with
    | lead l => simpa [Member.isTeammate] using ih
    | teammate t => simpa [Member.isTeammate] using ih

theorem spawn_register_ok {cfg cfg2 : TeamConfig} {r : SpawnReq}
    (h : spawn_register cfg r = .ok cfg2) :
    ∃ t : TeammateMember,
      cfg2.members = cfg.members ++ [Member.teammate t]
      ∧ t.color = COLOR_PALETTE.getD ((teammatesOf cfg).length % COLOR_PALETTE.length) "" := by
  unfold spawn_register add_member at h
  by_cases h1 : (!pyNameMatches r.name) = true
  · rw [if_pos h1] at h
    exact absurd h (by simp)
  · rw [if_neg h1] at h
    by_cases h2 : r.name.length > 64
    · rw [if_pos h2] at h
      exact absurd h (by simp)
    · rw [if_neg h2] at h
      by_cases h3 : r.name = "team-lead"
      · rw [if_pos h3] at h
        exact absurd h (by simp)
      · rw [if_neg h3] at h
        dsimp only at h
        by_cases h4 : r.name ∈ List.map Member.name cfg.members
        · rw [if_pos h4] at h
          exact absurd h (by simp)
        · rw [if_neg h4] at h
          injection h with h5
          refine ⟨_, congrArg TeamConfig.members h5.symm, ?_⟩
          simp [assign_color, teammateCount_eq_length]

theorem colorsOk_append {ts : List TeammateMember} {t : TeammateMember}
    (h : colorsOk ts)
    (ht : t.color = COLOR_PALETTE.getD (ts.length % COLOR_PALETTE.length) "") :
    colorsOk (ts ++ [t]) := by
  intro i u hu
  by_cases hi : i < ts.length
  · rw [List.getElem?_append_left hi] at hu
    exact h i u hu
  · have hlen : i < ts.length + 1 := by
      by_contra hcon
      rw [List.getElem?_eq_none (by simpa using Nat.le_of_not_lt hcon)] at hu
      exact Option.noConfusion hu
    have hieq : i = ts.length := by omega
    subst hieq
    have : (ts ++ [t])[ts.length]? = some t := by simp
    rw [this] at hu
    injection hu with hu2
    subst hu2
    exact ht

theorem spawnAll_colorsOk :
    ∀ (reqs : List SpawnReq) (cfg cfg2 : TeamConfig),
      spawnAll cfg reqs = .ok cfg2 →
      colorsOk (teammatesOf cfg) →
      colorsOk (teammatesOf cfg2)
        ∧ (teammatesOf cfg2).length = (teammatesOf cfg).length + reqs.length := by
  intro reqs
  induction reqs with
  | nil =>
    intro cfg cfg2 h hok
    unfold spawnAll at h
    injection h with h2
    subst h2
    exact ⟨hok, rfl⟩
  | cons r rest ih =>
    intro cfg cfg2 h hok
    unfold spawnAll at h
    split at h
    · exact absurd h (by simp)
    · rename_i cfgMid hmid
      obtain ⟨t, hmem, hcol⟩ := spawn_register_ok hmid
      have hmates : teammatesOf cfgMid = teammatesOf cfg ++ [t] := by
        unfold teammatesOf
        rw [hmem, List.filterMap_append]
        rfl
      have hok2 : colorsOk (teammatesOf cfgMid) := by
        rw [hmates]
        exact colorsOk_append hok hcol
      obtain ⟨h1, h2⟩ := ih cfgMid cfg2 h hok2
      refine ⟨h1, ?_⟩
      rw [h2, hmates]
      simp
      omega

/-- C7: `assign_color` returns `palette[(count of teammates) mod 8]`, and
after `N` successful spawns into a team that starts with no teammates the
`n`th spawned teammate's color is `palette[(n-1) mod 8]`. -/
theorem c7_spawn_colors (cfg cfg2 : TeamConfig) (reqs : List SpawnReq)
    (h0 : teammatesOf cfg = [])
    (h : spawnAll cfg reqs = .ok cfg2) :
    assign_color cfg2 = COLOR_PALETTE.getD (teammateCount cfg2 % COLOR_PALETTE.length) ""
    ∧ (teammatesOf cfg2).length = reqs.length
    ∧ ∀ n t, 1 ≤ n → (teammatesOf cfg2)[n - 1]? = some t →
        t.color = COLOR_PALETTE.getD ((n - 1) % COLOR_PALETTE.length) "" := by
  have base : colorsOk (teammatesOf cfg) := by
    rw [h0]
    intro i t ht
    simp at ht
  obtain ⟨hok, hlen⟩ := spawnAll_colorsOk reqs cfg cfg2 h base
  refine ⟨rfl, ?_, ?_⟩
  · rw [hlen, h0]
    simp
  · intro n t _ ht
    exact hok (n - 1) t ht

/-- C7 witness: two concrete spawns into a fresh team give the first two
palette colors. -/
theorem c7_witness :
    teammatesOf c7cfg = []
    ∧ ∃ cfg2, spawnAll c7cfg [c7req "ann", c7req "bob"] = .ok cfg2
        ∧ (teammatesOf cfg2).length = 2
        ∧ (teammatesOf cfg2)[0]?.map TeammateMember.color = some "blue"
        ∧ (teammatesOf cfg2)[1]?.map TeammateMember.color = some "green"
        ∧ ∀ t, (teammatesOf cfg2)[1]? = some t →
            t.color = COLOR_PALETTE.getD (1 % COLOR_PALETTE.length) "" := by
  refine ⟨by decide, ⟨_, rfl, ?_, by decide, by decide, ?_⟩⟩
  · exact (c7_spawn_colors c7cfg _ [c7req "ann", c7req "bob"] (by decide) rfl).2.1
  · intro t ht
    exact (c7_spawn_colors c7cfg _ [c7req "ann", c7req "bob"] (by decide) rfl).2.2
      2 t (by omega) ht

/-! # C9: `send_message` with `type = "shutdown_response"` -/

/-- C9: the call fails unless the sender is an existing teammate; on
approve it appends one structured `shutdown_approved` message to the
team-lead inbox carrying the sender's pane id and backend type, with a
session id present exactly when the sender is opencode-backed (and then
equal to the sender's remote session id); on reject it appends a plain
message with summary `shutdown_rejected`.  The hypothesis ties a
teammate's backend to the presence of its remote session id, as
`spawn_teammate` establishes (the session is created precisely for
opencode backends). -/
theorem c9_shutdown_response (cfg : TeamConfig) (sender content rid now : String)
    (approve : Option Bool) (inbox : List ServerMessage)
    (hcoh : ∀ t, findTeammate cfg sender = some t →
      (t.backend_type = "opencode" ↔ t.opencode_session_id.isSome)) :
    (findTeammate cfg sender = none →
      ∃ e, send_message_shutdown_response cfg sender content rid now approve inbox
        = .error e)
    ∧ (∀ m, findTeammate cfg sender = some m → approve = some true →
        ∃ p : ShutdownApprovedP,
          send_message_shutdown_response cfg sender content rid now approve inbox
            = .ok (inbox ++
                [{ from_ := sender, body := .shutdownApproved p, timestamp := now
                   read := false, summary := none, color := none }],
              "Shutdown approved for request " ++ rid)
          ∧ p.from_ = sender
          ∧ p.request_id = rid
          ∧ p.pane_id = m.tmux_pane_id
          ∧ p.backend_type = m.backend_type
          ∧ p.session_id = m.opencode_session_id
          ∧ (p.session_id.isSome ↔ m.backend_type = "opencode"))
    ∧ (∀ m, findTeammate cfg sender = some m → pyTruthy approve = false →
        send_message_shutdown_response cfg sender content rid now approve inbox
          = .ok (inbox ++
              [{ from_ := sender
                 body := .plain (if content = "" then "Shutdown rejected" else content)
                 timestamp := now, read := false, summary := some "shutdown_rejected"
                 color := none }],
            "Shutdown rejected for request " ++ rid)) := by
  refine ⟨?_, ?_, ?_⟩
  · intro hn
    exact ⟨_, by rw [send_message_shutdown_response, hn]⟩
  · intro m hm ha
    subst ha
    refine ⟨{ request_id := rid, from_ := sender, timestamp := now
              pane_id := m.tmux_pane_id, backend_type := m.backend_type
              session_id := m.opencode_session_id },
      ?_, rfl, rfl, rfl, rfl, rfl, (hcoh m hm).symm⟩
    rw [send_message_shutdown_response, hm]
    rfl
  · intro m hm ha
    rw [send_message_shutdown_response, hm]
    dsimp only
    rw [ha]
    simp

/-- C9 witness: an opencode-backed teammate approves a shutdown; the
`shutdown_approved` payload carries its pane id, backend type and remote
session id `ses_oc1`. -/
theorem c9_witness :
    findTeammate c9cfg "worker" = some c9mate
    ∧ ∃ p : ShutdownApprovedP,
        send_message_shutdown_response c9cfg "worker" "" "req-7" "t1" (some true) []
          = .ok ([{ from_ := "worker", body := .shutdownApproved p, timestamp := "t1"
                    read := false, summary := none, color := none }],
            "Shutdown approved for request req-7")
        ∧ p.pane_id = "%42" ∧ p.backend_type = "opencode"
        ∧ p.session_id = some "ses_oc1" := by
  have h := (c9_shutdown_response c9cfg "worker" "" "req-7" "t1" (some true) []
    (by intro t ht; rw [show findTeammate c9cfg "worker" = some c9mate from rfl] at ht;
        injection ht with h2; subst h2; decide)).2.1 c9mate rfl rfl
  obtain ⟨p, hp, _, _, h3, h4, h5, _⟩ := h
  exact ⟨rfl, p, hp, by rw [h3]; rfl, by rw [h4]; rfl, by rw [h5]; rfl⟩

/-! # C10: missing blocker files are skipped in the status check -/

theorem checkBlockers_none_of_completed {d : TeamDir} {s : String} :
    ∀ {l : List String},
      (∀ b ∈ l, ∀ tb, readTask d b = some tb → tb.status = "completed") →
      checkBlockers d s l = none := by
  intro l
  induction l with
  | nil => intro _; rfl
  | cons b rest ih =>
    intro h
    unfold checkBlockers
    cases hb : readTask d b with
    | none => exact ih fun b2 hb2 tb htb => h b2 (List.mem_cons_of_mem _ hb2) tb htb
    | some bt =>
      have hc : bt.status = "completed" := h b (List.mem_cons_self ..) bt hb
      dsimp only
      rw [if_neg (by simp [hc])]
      exact ih fun b2 hb2 tb htb => h b2 (List.mem_cons_of_mem _ hb2) tb htb

theorem checkStatusErr_none_statusOnly {d : TeamDir} {task : TaskFile} {s : String}
    (hs : s = "in_progress" ∨ s = "completed")
    (hrank : ∃ cur new, statusOrder task.status = some cur ∧ statusOrder s = some new
      ∧ cur ≤ new)
    (hcompleted : ∀ b ∈ task.blocked_by, ∀ tb, readTask d b = some tb →
      tb.status = "completed") :
    checkStatusErr d task { status := some s } = none := by
  obtain ⟨cur, new, hc, hn, hle⟩ := hrank
  have hsd : s ≠ "deleted" := by
    rcases hs with h | h <;> subst h <;> decide
  unfold checkStatusErr
  dsimp only
  rw [if_neg hsd, hc, hn]
  dsimp only
  rw [if_neg (by omega)]
  have heff : effectiveBlockedBy task (truthyList ({ status := some s } : UpdateArgs).add_blocked_by)
      = task.blocked_by := by
    simp [effectiveBlockedBy, truthyList]
  rw [heff]
  split
  · exact checkBlockers_none_of_completed hcompleted
  · rfl

/-- C10: in the blocker check for a transition to `in_progress` or
`completed`, a blocker id whose task file does not exist on disk is
silently skipped, so the transition succeeds even though that listed
blocker was never completed. -/
theorem c10_missing_blocker_skipped (d : TeamDir) (tid : String) (task : TaskFile)
    (s : String)
    (hread : readTask d tid = some task)
    (hs : s = "in_progress" ∨ s = "completed")
    (hrank : ∃ cur new, statusOrder task.status = some cur ∧ statusOrder s = some new
      ∧ cur ≤ new)
    (hmissing : ∃ b ∈ task.blocked_by, readTask d b = none)
    (hcompleted : ∀ b ∈ task.blocked_by, ∀ tb, readTask d b = some tb →
      tb.status = "completed") :
    ∃ r, update_task d tid { status := some s } = .ok r := by
  have hval : validatePhase d tid task { status := some s } = none := by
    unfold validatePhase
    simp only [truthyList]
    rw [checkStatusErr_none_statusOnly hs hrank hcompleted]
    rfl
  have hsd : s ≠ "deleted" := by
    rcases hs with h | h <;> subst h <;> decide
  refine ⟨({ task with status := s },
    FsOp.write tid { task with status := s } ::
      pwOps (if s = "completed" then completedCascade tid [] d else [])), ?_⟩
  unfold update_task
  rw [hread]
  dsimp only
  rw [hval]
  dsimp only [truthyList]
  simp only [applyAddBlocks, applyAddBlockedBy]
  rw [if_neg hsd]
  rfl

/-- C10 witness: task `2` is blocked by the nonexistent task `1`, yet the
transition to `in_progress` succeeds. -/
theorem c10_witness :
    readTask c10d "2" = some c10task
    ∧ (∃ b ∈ c10task.blocked_by, readTask c10d b = none)
    ∧ ∃ r, update_task c10d "2" { status := some "in_progress" } = .ok r :=
  ⟨rfl, ⟨"1", by decide, rfl⟩,
    c10_missing_blocker_skipped c10d "2" c10task "in_progress" rfl (Or.inl rfl)
      ⟨0, 1, rfl, rfl, by omega⟩ ⟨"1", by decide, rfl⟩
      (by
        intro b hb tb htb
        have hb2 : b = "1" := by
          have : c10task.blocked_by = ["1"] := rfl
          rw [this] at hb
          simpa using hb
        subst hb2
        rw [show readTask c10d "1" = none from rfl] at htb
        exact Option.noConfusion htb)⟩

/-! # C2: cycle creation is rejected with a "circular" error and no write -/

theorem msgCircBlock_mentions (tid b : String) :
    MentionsCircular (msgCircBlock tid b) := by
  refine ⟨"Adding block " ++ tid ++ " -> " ++ b ++ " would create a ", " dependency", ?_⟩
  unfold msgCircBlock
  rw [show (" would create a circular dependency" : String)
      = " would create a " ++ "circular" ++ " dependency" from rfl]
  simp [String.append_assoc]

theorem msgCircBlockedBy_mentions (tid b : String) :
    MentionsCircular (msgCircBlockedBy tid b) := by
  refine ⟨"Adding dependency " ++ tid ++ " blocked_by " ++ b ++ " would create a ",
    " dependency", ?_⟩
  unfold msgCircBlockedBy
  rw [show (" would create a circular dependency" : String)
      = " would create a " ++ "circular" ++ " dependency" from rfl]
  simp [String.append_assoc]

theorem checkCyclesBlocks_some_shape {d : TeamDir} {tid : String} {p : PendingEdges} :
    ∀ {l : List String} {m : String}, checkCyclesBlocks d tid p l = some m →
      ∃ b, m = msgCircBlock tid b := by
  intro l
  induction l with
  | nil => intro m h; exact absurd h (by simp [checkCyclesBlocks])
  | cons b rest ih =>
    intro m h
    unfold checkCyclesBlocks at h
    split at h
    · injection h with h2
      exact ⟨b, h2.symm⟩
    · exact ih h

theorem checkCyclesBlockedBy_some_shape {d : TeamDir} {tid : String} {p : PendingEdges} :
    ∀ {l : List String} {m : String}, checkCyclesBlockedBy d tid p l = some m →
      ∃ b, m = msgCircBlockedBy tid b := by
  intro l
  induction l with
  | nil => intro m h; exact absurd h (by simp [checkCyclesBlockedBy])
  | cons b rest ih =>
    intro m h
    unfold checkCyclesBlockedBy at h
    split at h
    · injection h with h2
      exact ⟨b, h2.symm⟩
    · exact ih h

theorem checkCyclesBlocks_isSome_of_exists {d : TeamDir} {tid : String} {p : PendingEdges} :
    ∀ {l : List String}, (∃ b ∈ l, would_create_cycle d b tid p = true) →
      ∃ m, checkCyclesBlocks d tid p l = some m := by
  intro l
  induction l with
  | nil => rintro ⟨b, hb, _⟩; simp at hb
  | cons b rest ih =>
    rintro ⟨b2, hb2, hc⟩
    unfold checkCyclesBlocks
    by_cases hb : would_create_cycle d b tid p = true
    · rw [if_pos hb]
      exact ⟨_, rfl⟩
    · rw [if_neg hb]
      rcases List.mem_cons.mp hb2 with rfl | hmem
      · exact absurd hc hb
      · exact ih ⟨b2, hmem, hc⟩

theorem checkCyclesBlockedBy_isSome_of_exists {d : TeamDir} {tid : String}
    {p : PendingEdges} :
    ∀ {l : List String}, (∃ b ∈ l, would_create_cycle d tid b p = true) →
      ∃ m, checkCyclesBlockedBy d tid p l = some m := by
  intro l
  induction l with
  | nil => rintro ⟨b, hb, _⟩; simp at hb
  | cons b rest ih =>
    rintro ⟨b2, hb2, hc⟩
    unfold checkCyclesBlockedBy
    by_cases hb : would_create_cycle d tid b p = true
    · rw [if_pos hb]
      exact ⟨_, rfl⟩
    · rw [if_neg hb]
      rcases List.mem_cons.mp hb2 with rfl | hmem
      · exact absurd hc hb
      · exact ih ⟨b2, hmem, hc⟩

/-- C2: when the requested `add_blocks` / `add_blocked_by` entries pass
reference validation but the breadth-first walk detects a cycle,
`update_task` raises an error mentioning "circular" and the directory is
left untouched. -/
theorem c2_cycle_rejected (d : TeamDir) (tid : String) (task : TaskFile) (a : UpdateArgs)
    (hread : readTask d tid = some task)
    (hab : checkRefs d tid (msgSelfBlock tid) (truthyList a.add_blocks) = none)
    (habb : checkRefs d tid (msgSelfBlockedBy tid) (truthyList a.add_blocked_by) = none)
    (hcyc :
      (∃ b ∈ truthyList a.add_blocks,
        would_create_cycle d b tid
          (buildPending tid (truthyList a.add_blocks) (truthyList a.add_blocked_by)) = true)
      ∨ (∃ b ∈ truthyList a.add_blocked_by,
        would_create_cycle d tid b
          (buildPending tid (truthyList a.add_blocks) (truthyList a.add_blocked_by)) = true)) :
    (∃ msg, update_task d tid a = .error msg ∧ MentionsCircular msg)
    ∧ update_task_run d tid a = d := by
  set p := buildPending tid (truthyList a.add_blocks) (truthyList a.add_blocked_by) with hp
  have hsome : ∃ msg, validatePhase d tid task a = some msg ∧ MentionsCircular msg := by
    unfold validatePhase
    dsimp only
    rw [← hp, hab, habb]
    simp only [orErr]
    cases hcb : checkCyclesBlocks d tid p (truthyList a.add_blocks) with
    | some m =>
      obtain ⟨b, hb⟩ := checkCyclesBlocks_some_shape hcb
      exact ⟨m, rfl, hb ▸ msgCircBlock_mentions tid b⟩
    | none =>
      simp only [orErr]
      rcases hcyc with hl | hr
      · obtain ⟨m, hm⟩ := checkCyclesBlocks_isSome_of_exists hl
        rw [hm] at hcb
        exact Option.noConfusion hcb
      · obtain ⟨m, hm⟩ := checkCyclesBlockedBy_isSome_of_exists hr
        rw [hm]
        simp only [orErr]
        obtain ⟨b, hb⟩ := checkCyclesBlockedBy_some_shape hm
        exact ⟨m, rfl, hb ▸ msgCircBlockedBy_mentions tid b⟩

  obtain ⟨msg, hv, hmen⟩ := hsome
  have herr : update_task d tid a = .error msg := by
    unfold update_task
    rw [hread]
    dsimp only
    rw [hv]
  refine ⟨⟨msg, herr, hmen⟩, ?_⟩
  unfold update_task_run
  rw [herr]

/-- C2 witness: with the edge `1 blocks 2` on disk, asking task `2` to
block task `1` is rejected with a "circular" error and the directory is
unchanged (the spec's dependency-cycle scenario). -/
theorem c2_witness :
    readTask c2d "2" = some c2t2
    ∧ checkRefs c2d "2" (msgSelfBlock "2") (truthyList c2args.add_blocks) = none
    ∧ (∃ b ∈ truthyList c2args.add_blocks,
        would_create_cycle c2d b "2"
          (buildPending "2" (truthyList c2args.add_blocks)
            (truthyList c2args.add_blocked_by)) = true)
    ∧ (∃ msg, update_task c2d "2" c2args = .error msg ∧ MentionsCircular msg)
    ∧ update_task_run c2d "2" c2args = c2d :=
  have h := c2_cycle_rejected c2d "2" c2t2 c2args rfl (by decide) (by decide)
    (Or.inl ⟨"1", by decide, by decide⟩)
  ⟨rfl, by decide, ⟨"1", by decide, by decide⟩, h.1, h.2⟩

/-! # C3: status transition rules -/

theorem orErr_eq_none {a b : Option String} (h : orErr a b = none) :
    a = none ∧ b = none := by
  cases a with
  | some e => exact Option.noConfusion h
  | none => exact ⟨rfl, h⟩

theorem update_ok_validate {d : TeamDir} {tid : String} {a : UpdateArgs}
    {r : TaskFile × List FsOp} (h : update_task d tid a = .ok r) :
    ∃ task, readTask d tid = some task ∧ validatePhase d tid task a = none := by
  unfold update_task at h
  cases hr : readTask d tid with
  | none =>
    rw [hr] at h
    exact absurd h (by simp)
  | some task =>
    rw [hr] at h
    dsimp only at h
    cases hv : validatePhase d tid task a with
    | some e =>
      rw [hv] at h
      exact absurd h (by simp)
    | none => exact ⟨task, rfl, hv⟩

theorem checkBlockers_none_forall {d : TeamDir} {s : String} :
    ∀ {l : List String}, checkBlockers d s l = none →
      ∀ b ∈ l, ∀ tb, readTask d b = some tb → tb.status = "completed" := by
  intro l
  induction l with
  | nil =>
    intro _ b hb
    simp at hb
  | cons b0 rest ih =>
    intro h b hb tb htb
    unfold checkBlockers at h
    rcases List.mem_cons.mp hb with rfl | hmem
    · rw [htb] at h
      dsimp only at h
      by_cases hst : tb.status = "completed"
      · exact hst
      · rw [if_pos (by simp [hst])] at h
        exact Option.noConfusion h
    · cases hr : readTask d b0 with
      | none =>
        rw [hr] at h
        exact ih h b hmem tb htb
      | some bt =>
        rw [hr] at h
        dsimp only at h
        split at h
        · exact Option.noConfusion h
        · exact ih h b hmem tb htb

theorem checkStatusErr_none_inversion {d : TeamDir} {task : TaskFile} {a : UpdateArgs}
    {s : String} (hst : a.status = some s) (hsd : s ≠ "deleted")
    (h : checkStatusErr d task a = none) :
    ∃ cur new, statusOrder task.status = some cur ∧ statusOrder s = some new
      ∧ cur ≤ new
      ∧ ((s = "in_progress" ∨ s = "completed") →
          ∀ b, b ∈ task.blocked_by ∨ b ∈ truthyList a.add_blocked_by →
            ∀ tb, readTask d b = some tb → tb.status = "completed") := by
  unfold checkStatusErr at h
  rw [hst] at h
  dsimp only at h
  rw [if_neg hsd] at h
  cases hc : statusOrder task.status with
  | none =>
    rw [hc] at h
    exact Option.noConfusion h
  | some cur =>
    rw [hc] at h
    dsimp only at h
    cases hn : statusOrder s with
    | none =>
      rw [hn] at h
      exact Option.noConfusion h
    | some new =>
      rw [hn] at h
      dsimp only at h
      by_cases hlt : new < cur
      · rw [if_pos hlt] at h
        exact Option.noConfusion h
      · rw [if_neg hlt] at h
        refine ⟨cur, new, rfl, rfl, by omega, ?_⟩
        intro hs b hb tb htb
        have hmem : b ∈ effectiveBlockedBy task (truthyList a.add_blocked_by) := by
          unfold effectiveBlockedBy
          rcases hb with hb | hb
          · exact List.mem_append_left _ hb
          · by_cases hb2 : b ∈ task.blocked_by
            · exact List.mem_append_left _ hb2
            · exact List.mem_append_right _ (List.mem_filter.mpr ⟨hb, by simp [hb2]⟩)
        have hcond : ((s = "in_progress" || s = "completed")
            && !(effectiveBlockedBy task (truthyList a.add_blocked_by)).isEmpty) = true := by
          have h1 : (s = "in_progress" || s = "completed") = true := by
            rcases hs with h2 | h2 <;> simp [h2]
          have h2 : (effectiveBlockedBy task (truthyList a.add_blocked_by)).isEmpty = false := by
            cases heff : effectiveBlockedBy task (truthyList a.add_blocked_by) with
            | nil =>
              rw [heff] at hmem
              simp at hmem
            | cons x xs => rfl
          simp [h1, h2]
        rw [if_pos hcond] at h
        exact checkBlockers_none_forall h b hmem tb htb

/-- C3, counterexample: task `2` lists blocker `1` in `blocked_by`, task
`1` has no file on disk, and the transition of `2` to `in_progress`
succeeds although that blocker does not have status `completed` — so the
blocker-completion condition as stated is not necessary for success. -/
theorem c3_counterexample :
    "1" ∈ c3task.blocked_by
    ∧ readTask c3d "2" = some c3task
    ∧ (∃ r, update_task c3d "2" { status := some "in_progress" } = .ok r)
    ∧ ¬ ∃ tb, readTask c3d "1" = some tb ∧ tb.status = "completed" := by
  refine ⟨by decide, rfl, ⟨_, rfl⟩, ?_⟩
  rintro ⟨tb, htb, -⟩
  rw [show readTask c3d "1" = none from rfl] at htb
  exact Option.noConfusion htb

/-- C3, amended: a `status="deleted"` call (with no other arguments) is
accepted from any current status; a call with any other non-null status
succeeds only if the new rank (`pending=0, in_progress=1, completed=2`)
is defined and not below the current task's rank, and a transition to
`in_progress` or `completed` succeeds only if every blocker in the
effective `blocked_by` set *whose task file exists on disk* has status
`completed` (blockers without a file are skipped, see the missing-blocker
claim). -/
theorem c3_status_transitions (d : TeamDir) (tid : String) (task : TaskFile)
    (a : UpdateArgs) :
    (a = { status := some "deleted" } → readTask d tid = some task →
      ∃ r, update_task d tid a = .ok r)
    ∧ (∀ s r, a.status = some s → s ≠ "deleted" → readTask d tid = some task →
        update_task d tid a = .ok r →
        ∃ cur new, statusOrder task.status = some cur ∧ statusOrder s = some new
          ∧ cur ≤ new
          ∧ ((s = "in_progress" ∨ s = "completed") →
              ∀ b, b ∈ task.blocked_by ∨ b ∈ truthyList a.add_blocked_by →
                ∀ tb, readTask d b = some tb → tb.status = "completed")) := by
  constructor
  · intro ha hread
    subst ha
    have h : update_task d tid { status := some "deleted" } =
        .ok ({ task with status := "deleted" },
          pwOps (deletedCascade tid [] d) ++ [FsOp.unlink tid]) := by
      unfold update_task
      rw [hread]
      dsimp only
      rw [show validatePhase d tid task { status := some "deleted" } = none from rfl]
      dsimp only [truthyList]
      simp only [applyAddBlocks, applyAddBlockedBy]
      rfl
    exact ⟨_, h⟩
  · intro s r hst hsd hread hok
    obtain ⟨task2, hr2, hval⟩ := update_ok_validate hok
    rw [hread] at hr2
    injection hr2 with h2
    subst h2
    unfold validatePhase at hval
    dsimp only at hval
    obtain ⟨-, hval⟩ := orErr_eq_none hval
    obtain ⟨-, hval⟩ := orErr_eq_none hval
    obtain ⟨-, hval⟩ := orErr_eq_none hval
    obtain ⟨-, hval⟩ := orErr_eq_none hval
    exact checkStatusErr_none_inversion hst hsd hval

/-- C3 witness: the amended theorem applied to a concrete deletion from
status `pending` and to a concrete successful `in_progress` transition. -/
theorem c3_witness :
    (∃ r, update_task c3wd "3" { status := some "deleted" } = .ok r)
    ∧ ∃ cur new, statusOrder c3wtask.status = some cur
        ∧ statusOrder "in_progress" = some new ∧ cur ≤ new
        ∧ ((("in_progress" : String) = "in_progress" ∨ ("in_progress" : String) = "completed") →
            ∀ b, b ∈ c3wtask.blocked_by
                ∨ b ∈ truthyList ({ status := some "in_progress" } : UpdateArgs).add_blocked_by →
              ∀ tb, readTask c3wd b = some tb → tb.status = "completed") :=
  ⟨(c3_status_transitions c3wd "3" c3wtask { status := some "deleted" }).1 rfl rfl,
   (c3_status_transitions c3wd "3" c3wtask { status := some "in_progress" }).2
     "in_progress" _ rfl (by decide) rfl rfl⟩

/-! # C4: deletion unlinks the task and strips it from every sibling -/

theorem deletedStrip_eq (tid : String) (other : TaskFile) :
    deletedStrip tid other = stripBoth tid other := by
  unfold deletedStrip stripBoth
  by_cases h1 : tid ∈ other.blocked_by <;> by_cases h2 : tid ∈ other.blocks
  · simp [h1, h2]
  · simp [h1, h2, List.erase_of_not_mem h2]
  · simp [h1, h2, List.erase_of_not_mem h1]
  · simp [h1, h2, List.erase_of_not_mem h1, List.erase_of_not_mem h2]

theorem stripBoth_of_not_mem {tid : String} {t : TaskFile}
    (h1 : tid ∉ t.blocked_by) (h2 : tid ∉ t.blocks) : stripBoth tid t = t := by
  unfold stripBoth
  rw [List.erase_of_not_mem h1, List.erase_of_not_mem h2]

theorem readTask_deletedCascadeStep (tid k0 : String) (t0 : TaskFile)
    (pw : PendingWrites) (k : String) (hk : k ≠ k0) :
    readTask (deletedCascadeStep tid pw k0 t0) k = readTask pw k := by
  unfold deletedCascadeStep
  split
  · rfl
  · dsimp only
    split
    · rw [readTask_writeTask, if_neg hk]
    · rfl

theorem readTask_deletedCascadeStep_self (tid k0 : String) (t0 : TaskFile)
    (pw : PendingWrites) :
    readTask (deletedCascadeStep tid pw k0 t0) k0 =
      if (!pyNumericId k0 || k0 = tid) = true then readTask pw k0
      else if tid ∈ ((readTask pw k0).getD t0).blocked_by
          ∨ tid ∈ ((readTask pw k0).getD t0).blocks
        then some (stripBoth tid ((readTask pw k0).getD t0))
        else readTask pw k0 := by
  unfold deletedCascadeStep
  split
  · rfl
  · dsimp only
    split
    · rw [readTask_writeTask, if_pos rfl, deletedStrip_eq]
    · rfl

theorem readTask_deletedCascade (tid : String) :
    ∀ (rest : TeamDir) (pw : PendingWrites) (k : String),
      (dirKeys rest).Nodup →
      readTask (deletedCascade tid pw rest) k =
        match readTask rest k with
        | some t =>
          if (!pyNumericId k || k = tid) = true then readTask pw k
          else if tid ∈ ((readTask pw k).getD t).blocked_by
              ∨ tid ∈ ((readTask pw k).getD t).blocks
            then some (stripBoth tid ((readTask pw k).getD t))
            else readTask pw k
        | none => readTask pw k := by
  intro rest
  induction rest with
  | nil =>
    intro pw k _
    rfl
  | cons kv tail ih =>
    intro pw k hnd
    obtain ⟨k0, t0⟩ := kv
    rw [dirKeys_cons] at hnd
    have hnd2 := List.nodup_cons.mp hnd
    have hstep : deletedCascade tid pw ((k0, t0) :: tail)
        = deletedCascade tid (deletedCascadeStep tid pw k0 t0) tail := rfl
    rw [hstep, ih (deletedCascadeStep tid pw k0 t0) k hnd2.2, readTask_cons]
    by_cases hk : k0 = k
    · subst hk
      rw [if_pos rfl, readTask_eq_none hnd2.1]
      dsimp only
      exact readTask_deletedCascadeStep_self tid k0 t0 pw
    · rw [if_neg hk]
      simp only [readTask_deletedCascadeStep tid k0 t0 pw k (Ne.symm hk)]

theorem dirKeys_deletedCascadeStep_nodup (tid k0 : String) (t0 : TaskFile)
    (pw : PendingWrites) (h : (dirKeys pw).Nodup) :
    (dirKeys (deletedCascadeStep tid pw k0 t0)).Nodup := by
  unfold deletedCascadeStep
  split
  · exact h
  · dsimp only
    split
    · exact dirKeys_writeTask_nodup _ _ _ h
    · exact h

theorem dirKeys_deletedCascade_nodup (tid : String) :
    ∀ (rest : TeamDir) (pw : PendingWrites), (dirKeys pw).Nodup →
      (dirKeys (deletedCascade tid pw rest)).Nodup := by
  intro rest
  induction rest with
  | nil =>
    intro pw h
    exact h
  | cons kv tail ih =>
    intro pw h
    exact ih _ (dirKeys_deletedCascadeStep_nodup _ _ _ _ h)

theorem update_task_deleted_eq (d : TeamDir) (tid : String) (task : TaskFile)
    (hread : readTask d tid = some task) :
    update_task d tid { status := some "deleted" } =
      .ok ({ task with status := "deleted" },
        pwOps (deletedCascade tid [] d) ++ [FsOp.unlink tid]) := by
  unfold update_task
  rw [hread]
  dsimp only
  rw [show validatePhase d tid task { status := some "deleted" } = none from rfl]
  dsimp only [truthyList]
  simp only [applyAddBlocks, applyAddBlockedBy]
  rfl

/-- C4: `update_task(t, status="deleted")` on an existing task removes
the task's file, and every other task file with a numeric stem loses `t`
from both its `blocks` and `blocked_by`; the staged sibling writes are
flushed before the unlink in the phase-4 effect list. -/
theorem c4_delete_cascade (d : TeamDir) (tid : String) (task : TaskFile)
    (hnd : (dirKeys d).Nodup) (hread : readTask d tid = some task) :
    (∃ t5 pw, update_task d tid { status := some "deleted" }
        = .ok (t5, pwOps pw ++ [FsOp.unlink tid]))
    ∧ readTask (update_task_run d tid { status := some "deleted" }) tid = none
    ∧ ∀ k t, k ≠ tid → readTask d k = some t →
        readTask (update_task_run d tid { status := some "deleted" }) k =
          some (if pyNumericId k then stripBoth tid t else t) := by
  have hupd := update_task_deleted_eq d tid task hread
  have hrun : update_task_run d tid { status := some "deleted" } =
      unlinkTask (applyOps d (pwOps (deletedCascade tid [] d))) tid := by
    unfold update_task_run
    rw [hupd]
    dsimp only
    rw [applyOps_append]
    rfl
  refine ⟨⟨_, _, hupd⟩, ?_, ?_⟩
  · rw [hrun, readTask_unlinkTask, if_pos rfl]
  · intro k t hk hrk
    rw [hrun, readTask_unlinkTask, if_neg hk]
    have hnodup3 : (dirKeys (deletedCascade tid [] d)).Nodup :=
      dirKeys_deletedCascade_nodup tid d [] List.nodup_nil
    have hchar := readTask_deletedCascade tid d [] k hnd
    rw [hrk] at hchar
    dsimp only at hchar
    have hnil : readTask ([] : TeamDir) k = none := rfl
    rw [hnil] at hchar
    dsimp only [Option.getD] at hchar
    rw [readTask_applyPW d _ hnodup3 k]
    by_cases hnum : pyNumericId k = true
    · rw [if_neg (by simp [hnum, hk])] at hchar
      by_cases hch : tid ∈ t.blocked_by ∨ tid ∈ t.blocks
      · rw [if_pos hch] at hchar
        rw [hchar]
        simp [hnum]
      · rw [if_neg hch] at hchar
        rw [hchar]
        push_neg at hch
        dsimp only
        rw [hrk]
        simp [hnum, stripBoth_of_not_mem hch.1 hch.2]
    · rw [if_pos (by simp [hnum])] at hchar
      rw [hchar]
      dsimp only
      rw [hrk]
      simp [hnum]

/-- C4 witness: deleting task `1` (which blocks task `2`) unlinks `1` and
rewrites `2` with empty `blocked_by`, the sibling write preceding the
unlink. -/
theorem c4_witness :
    (∃ t5 pw, update_task c4d "1" { status := some "deleted" }
        = .ok (t5, pwOps pw ++ [FsOp.unlink "1"]))
    ∧ readTask (update_task_run c4d "1" { status := some "deleted" }) "1" = none
    ∧ readTask (update_task_run c4d "1" { status := some "deleted" }) "2"
        = some (stripBoth "1" c4t2) :=
  have h := c4_delete_cascade c4d "1" c4t1 (by decide) rfl
  ⟨h.1, h.2.1, by
    have h2 := h.2.2 "2" c4t2 (by decide) rfl
    rw [h2]
    decide⟩

/-! # C5: `read_inbox` with `mark_as_read = True` -/

theorem setRead_of_read {m : InboxMessage} (h : m.read = true) : setRead m = m := by
  cases m
  simp_all [setRead]

theorem flipStep_length (acc : List InboxMessage) (residx : List Nat) (i : Nat) :
    (flipStep acc residx i).length = acc.length := by
  unfold flipStep
  split
  · rfl
  · split
    · exact List.length_set ..
    · rfl

theorem flipGo_length (residx : List Nat) :
    ∀ (todo : List Nat) (acc : List InboxMessage),
      (flipGo residx acc todo).length = acc.length := by
  intro todo
  induction todo with
  | nil => intro acc; rfl
  | cons i rest ih =>
    intro acc
    rw [show flipGo residx acc (i :: rest) = flipGo residx (flipStep acc residx i) rest
      from rfl, ih, flipStep_length]

theorem flipStep_get_ne (acc : List InboxMessage) (residx : List Nat) (i j : Nat)
    (h : i ≠ j) : (flipStep acc residx i)[j]? = acc[j]? := by
  unfold flipStep
  split
  · rfl
  · split
    · exact List.getElem?_set_ne h
    · rfl

theorem flipStep_get_self {acc : List InboxMessage} {residx : List Nat} {i : Nat}
    {m : InboxMessage} (hm : acc[i]? = some m)
    (hres : m.read = false → residx.any (fun j => acc[j]? = some m) = true) :
    (flipStep acc residx i)[i]? = some (setRead m) := by
  have hi : i < acc.length := by
    by_contra hcon
    rw [List.getElem?_eq_none (Nat.le_of_not_lt hcon)] at hm
    exact Option.noConfusion hm
  unfold flipStep
  rw [hm]
  dsimp only
  cases hmr : m.read with
  | false =>
    rw [if_pos (hres hmr)]
    exact List.getElem?_set_self hi
  | true =>
    have hsm : setRead m = m := setRead_of_read hmr
    split
    · rw [hsm]
      exact List.getElem?_set_self hi
    · rw [hm, hsm]

theorem flipGo_get (residx : List Nat) (all : List InboxMessage)
    (hres : ∀ i m, all[i]? = some m → m.read = false → i ∈ residx) :
    ∀ (todo : List Nat) (acc : List InboxMessage),
      acc.length = all.length →
      todo.Nodup →
      (∀ i, i ∈ todo → acc[i]? = all[i]?) →
      (∀ i, i < all.length → i ∉ todo → acc[i]? = (all[i]?).map setRead) →
      ∀ j, j < all.length → (flipGo residx acc todo)[j]? = (all[j]?).map setRead := by
  intro todo
  induction todo with
  | nil =>
    intro acc _ _ _ hdone j hj
    exact hdone j hj (by simp)
  | cons i rest ih =>
    intro acc hlen hnd hmem hdone j hj
    have hnd2 := List.nodup_cons.mp hnd
    have hstep : flipGo residx acc (i :: rest) = flipGo residx (flipStep acc residx i) rest :=
      rfl
    rw [hstep]
    refine ih (flipStep acc residx i) (by rw [flipStep_length, hlen]) hnd2.2 ?_ ?_ j hj
    · intro i2 hi2
      have hne : i ≠ i2 := by
        rintro rfl
        exact hnd2.1 hi2
      rw [flipStep_get_ne acc residx i i2 hne]
      exact hmem i2 (List.mem_cons_of_mem _ hi2)
    · intro i2 hi2 hni2
      by_cases hii : i2 = i
      · subst hii
        have hacc : acc[i2]? = all[i2]? := hmem i2 (List.mem_cons_self ..)
        cases hall : all[i2]? with
        | none =>
          have haccn : acc[i2]? = none := by rw [hacc, hall]
          have hfs : flipStep acc residx i2 = acc := by
            unfold flipStep
            rw [haccn]
          rw [hfs, haccn]
          rfl
        | some m =>
          have haccs : acc[i2]? = some m := by rw [hacc, hall]
          have hany : m.read = false → residx.any (fun j => acc[j]? = some m) = true := by
            intro hmr
            have hir : i2 ∈ residx := hres i2 m hall hmr
            rw [List.any_eq_true]
            exact ⟨i2, hir, by simp [haccs]⟩
          rw [flipStep_get_self haccs hany]
          rfl
      · rw [flipStep_get_ne acc residx i i2 (fun h => hii h.symm)]
        exact hdone i2 hi2 (by
          intro hc
          rcases List.mem_cons.mp hc with h | h
          · exact hii h
          · exact hni2 h)

theorem flipLoop_eq_map (u : Bool) (all : List InboxMessage) :
    flipLoop all (selectIdx u all) = all.map setRead := by
  have hres : ∀ i m, all[i]? = some m → m.read = false → i ∈ selectIdx u all := by
    intro i m hm hr
    unfold selectIdx
    refine List.mem_filter.mpr ⟨List.mem_range.mpr ?_, ?_⟩
    · by_contra hcon
      rw [List.getElem?_eq_none (Nat.le_of_not_lt hcon)] at hm
      exact Option.noConfusion hm
    · rw [hm]
      simp [hr]
  apply List.ext_getElem?
  intro j
  by_cases hj : j < all.length
  · rw [show flipLoop all (selectIdx u all)
      = flipGo (selectIdx u all) all (List.range all.length) from rfl]
    rw [flipGo_get (selectIdx u all) all hres (List.range all.length) all rfl
      (List.nodup_range _) (fun i _ => rfl)
      (fun i hi hmem => absurd (List.mem_range.mpr hi) hmem) j hj]
    rw [List.getElem?_map]
  · have h1 : all.length ≤ j := Nat.le_of_not_lt hj
    have hlen2 : (flipLoop all (selectIdx u all)).length ≤ j := by
      rw [show flipLoop all (selectIdx u all)
        = flipGo (selectIdx u all) all (List.range all.length) from rfl, flipGo_length]
      exact h1
    rw [List.getElem?_eq_none hlen2]
    rw [List.getElem?_eq_none (by simpa using h1)]

theorem filterMap_getElem_map (l : List InboxMessage) (f : InboxMessage → InboxMessage) :
    ∀ (ixs : List Nat),
      ixs.filterMap (fun i => (l.map f)[i]?)
        = (ixs.filterMap (fun i => l[i]?)).map f := by
  intro ixs
  induction ixs with
  | nil => rfl
  | cons i rest ih =>
    rw [List.filterMap_cons, List.filterMap_cons]
    cases h : l[i]? with
    | none =>
      have h2 : (l.map f)[i]? = none := by
        rw [List.getElem?_map, h]
        rfl
      rw [h2]
      dsimp only
      exact ih
    | some m =>
      have h2 : (l.map f)[i]? = some (f m) := by
        rw [List.getElem?_map, h]
        rfl
      rw [h2]
      dsimp only
      rw [List.map_cons, ih]

theorem range_filter_filterMap (q : InboxMessage → Bool) :
    ∀ (l : List InboxMessage),
      ((List.range l.length).filter (fun i =>
          match l[i]? with
          | some m => q m
          | none => false)).filterMap (fun i => l[i]?) = l.filter q := by
  intro l
  induction l with
  | nil => rfl
  | cons m t ih =>
    rw [show (m :: t).length = t.length + 1 from rfl, List.range_succ_eq_map,
      List.filter_cons]
    have hp0 : (match (m :: t)[0]? with | some x => q x | none => false) = q m := by
      rw [List.getElem?_cons_zero]
    rw [hp0]
    have hcomp : ∀ xs : List Nat,
        (xs.map Nat.succ).filter (fun i =>
          match (m :: t)[i]? with | some x => q x | none => false)
          = (xs.filter (fun i => match t[i]? with | some x => q x | none => false)).map
              Nat.succ := by
      intro xs
      induction xs with
      | nil => rfl
      | cons x xt ihx =>
        simp only [List.map_cons, List.filter_cons]
        have hsucc : (match (m :: t)[x + 1]? with | some y => q y | none => false)
            = (match t[x]? with | some y => q y | none => false) := by
          rw [List.getElem?_cons_succ]
        rw [hsucc]
        split
        · simp [ihx]
        · simp [ihx]
    have hfm : ∀ xs : List Nat,
        (xs.map Nat.succ).filterMap (fun i => (m :: t)[i]?)
          = xs.filterMap (fun i => t[i]?) := by
      intro xs
      induction xs with
      | nil => rfl
      | cons x xt ihx =>
        simp only [List.map_cons, List.filterMap_cons]
        have hsucc : ((m :: t)[x + 1]?) = t[x]? := List.getElem?_cons_succ
        rw [hsucc]
        cases t[x]? with
        | none => simpa using ihx
        | some y => simpa using ihx
    by_cases hq : q m = true
    · rw [if_pos hq, List.filter_cons, if_pos hq]
      rw [List.filterMap_cons]
      have h0 : ((m :: t)[0]?) = some m := List.getElem?_cons_zero
      rw [h0]
      dsimp only
      rw [hcomp, hfm, ih]
    · rw [if_neg hq, List.filter_cons, if_neg hq]
      rw [hcomp, hfm, ih]

theorem selectIdx_eq_range_filter (u : Bool) (l : List InboxMessage) :
    selectIdx u l = (List.range l.length).filter (fun i =>
      match l[i]? with
      | some m => !u || !m.read
      | none => false) := rfl

theorem selectIdx_filterMap (u : Bool) (l : List InboxMessage) :
    (selectIdx u l).filterMap (fun i => l[i]?)
      = l.filter (fun m => !u || !m.read) := by
  rw [selectIdx_eq_range_filter]
  exact range_filter_filterMap (fun m => !u || !m.read) l

theorem selectIdx_isEmpty_iff (u : Bool) (l : List InboxMessage) :
    (selectIdx u l).isEmpty = (l.filter (fun m => !u || !m.read)).isEmpty := by
  rw [← selectIdx_filterMap u l]
  cases h : selectIdx u l with
  | nil => rfl
  | cons i rest =>
    have hmem : i ∈ selectIdx u l := by
      rw [h]
      exact List.mem_cons_self ..
    have hlt : i < l.length := by
      have := List.mem_filter.mp (by rw [selectIdx_eq_range_filter] at hmem; exact hmem)
      exact List.mem_range.mp this.1
    obtain ⟨x, hx⟩ : ∃ x, l[i]? = some x :=
      ⟨l[i], List.getElem?_eq_getElem hlt⟩
    simp [List.filterMap_cons, hx]

/-- C5, amended: with `mark_as_read=true`, `read_inbox` selects the slice
(all messages, or the unread ones), flips `read=true` on every message in
the result, rewrites the file if and only if the result is non-empty —
and, because the result aliases the stored messages, the returned slice
carries `read=true` as well: every field except `read` is as observed
before the flip.  A missing file yields the empty list. -/
theorem c5_read_inbox_mark (u : Bool) :
    read_inbox_mark none u = ([], none, false)
    ∧ ∀ l : List InboxMessage,
        read_inbox_mark (some l) u =
          ((l.filter (fun m => !u || !m.read)).map setRead,
            (if (l.filter (fun m => !u || !m.read)).isEmpty then some l
             else some (l.map setRead)),
            !(l.filter (fun m => !u || !m.read)).isEmpty) := by
  constructor
  · rfl
  · intro l
    unfold read_inbox_mark
    dsimp only
    by_cases he : (selectIdx u l).isEmpty = true
    · rw [if_pos he]
      have hf : (l.filter (fun m => !u || !m.read)).isEmpty = true := by
        rw [← selectIdx_isEmpty_iff]
        exact he
      have hsel : l.filter (fun m => !u || !m.read) = [] := by
        rwa [List.isEmpty_iff] at hf
      have hres : selectIdx u l = [] := by
        rwa [List.isEmpty_iff] at he
      rw [hres, hsel]
      simp
    · rw [if_neg he]
      have hf : (l.filter (fun m => !u || !m.read)).isEmpty = false := by
        rw [← selectIdx_isEmpty_iff]
        exact Bool.not_eq_true _ ▸ (by simpa using he)
      rw [flipLoop_eq_map, filterMap_getElem_map, selectIdx_filterMap, hf]
      rfl

/-- C5, counterexample: the slice returned by a marking read contains the
flipped messages, not the messages as observed before the flip — here the
single stored message was unread, yet the returned copy has `read=true`. -/
theorem c5_counterexample :
    (read_inbox_mark (some [c5msg]) false).1 = [setRead c5msg]
    ∧ (read_inbox_mark (some [c5msg]) false).2.2 = true
    ∧ setRead c5msg ≠ c5msg
    ∧ c5msg.read = false := by
  refine ⟨?_, ?_, by decide, by decide⟩ <;> decide

/-- C5 witness: the amended theorem evaluated on a concrete two-message
inbox with `unread_only = true`: the unread message comes back flipped,
the file is rewritten with both messages read. -/
theorem c5_witness :
    read_inbox_mark (some [setRead c5msg, c5msg]) true =
      ([setRead c5msg],
        some [setRead c5msg, setRead c5msg],
        true) := by
  have h := (c5_read_inbox_mark true).2 [setRead c5msg, c5msg]
  rw [h]
  decide

/-! # C1: reciprocity of `blocks` / `blocked_by` -/

theorem mem_dirKeys_of_readTask {d : TeamDir} {k : String} {t : TaskFile}
    (h : readTask d k = some t) : k ∈ dirKeys d :=
  List.mem_map_of_mem Prod.fst (readTask_mem h)

theorem reciprocal_of_reciprocalB {d : TeamDir} (h : reciprocalB d = true) :
    Reciprocal d := by
  intro a ta b tb ha hb
  have hma := readTask_mem ha
  have hmb := readTask_mem hb
  have h1 := (List.all_eq_true.mp h) (a, ta) hma
  have h2 := (List.all_eq_true.mp h1) (b, tb) hmb
  unfold recipPairB at h2
  rw [beq_iff_eq, decide_eq_decide] at h2
  exact h2

theorem reciprocalB_of_reciprocal {d : TeamDir} (hnd : (dirKeys d).Nodup)
    (h : Reciprocal d) : reciprocalB d = true := by
  unfold reciprocalB
  rw [List.all_eq_true]
  intro x hx
  rw [List.all_eq_true]
  intro y hy
  obtain ⟨xa, xt⟩ := x
  obtain ⟨ya, yt⟩ := y
  unfold recipPairB
  rw [beq_iff_eq, decide_eq_decide]
  exact h xa xt ya yt (mem_readTask hnd hx) (mem_readTask hnd hy)

theorem vlook_nil (d : TeamDir) (tid : String) (t : TaskFile) (k : String) :
    vlook d tid t [] k = if k = tid then some t else readTask d k := rfl

theorem recipV_of_reciprocal {d : TeamDir} {tid : String} {task : TaskFile}
    (hread : readTask d tid = some task) (h : Reciprocal d) :
    RecipV d tid task [] := by
  intro a ta b tb ha hb
  rw [vlook_nil] at ha hb
  have ha2 : readTask d a = some ta := by
    by_cases haa : a = tid
    · subst haa
      rw [if_pos rfl] at ha
      exact hread.trans ha
    · rwa [if_neg haa] at ha
  have hb2 : readTask d b = some tb := by
    by_cases hbb : b = tid
    · subst hbb
      rw [if_pos rfl] at hb
      exact hread.trans hb
    · rwa [if_neg hbb] at hb
  exact h a ta b tb ha2 hb2

theorem recipV_congr {d : TeamDir} {tid : String} {pw : PendingWrites}
    {t t2 : TaskFile} (hb : t2.blocks = t.blocks) (hbb : t2.blocked_by = t.blocked_by)
    (h : RecipV d tid t pw) : RecipV d tid t2 pw := by
  have conv : ∀ k v, vlook d tid t2 pw k = some v →
      ∃ v0, vlook d tid t pw k = some v0
        ∧ v.blocks = v0.blocks ∧ v.blocked_by = v0.blocked_by := by
    intro k v hv
    unfold vlook at hv ⊢
    by_cases hk : k = tid
    · rw [if_pos hk] at hv ⊢
      injection hv with hv2
      exact ⟨t, rfl, hv2 ▸ hb, hv2 ▸ hbb⟩
    · rw [if_neg hk] at hv ⊢
      exact ⟨v, hv, rfl, rfl⟩
  intro a ta b tb ha hb2
  obtain ⟨ta0, hta0, hbl, hbbl⟩ := conv a ta ha
  obtain ⟨tb0, htb0, hbl2, hbbl2⟩ := conv b tb hb2
  rw [hbbl2, hbl]
  exact h a ta0 b tb0 hta0 htb0

theorem applyFieldArgs_edges (task : TaskFile) (a : UpdateArgs) :
    (applyFieldArgs task a).blocks = task.blocks
    ∧ (applyFieldArgs task a).blocked_by = task.blocked_by := by
  unfold applyFieldArgs
  cases a.subject <;> cases a.description <;> cases a.active_form <;> cases a.owner <;>
    exact ⟨rfl, rfl⟩

theorem applyMetadata_edges (task : TaskFile) (a : UpdateArgs) :
    (applyMetadata task a).blocks = task.blocks
    ∧ (applyMetadata task a).blocked_by = task.blocked_by := by
  unfold applyMetadata
  cases a.metadata <;> exact ⟨rfl, rfl⟩

theorem vlook_writeTask {d : TeamDir} {tid : String} {t t2 : TaskFile}
    {pw : PendingWrites} {b : String} {o : TaskFile} (hb : b ≠ tid) (k : String) :
    vlook d tid t2 (writeTask pw b o) k =
      if k = tid then some t2 else if k = b then some o else vlook d tid t pw k := by
  unfold vlook
  by_cases hk : k = tid
  · rw [if_pos hk, if_pos hk]
  · rw [if_neg hk, if_neg hk, if_neg hk, readTask_writeTask]
    by_cases hkb : k = b
    · rw [if_pos hkb, if_pos hkb]
    · rw [if_neg hkb, if_neg hkb]

theorem recipV_addBlockEdge {d : TeamDir} {tid : String} {task : TaskFile}
    {pw : PendingWrites} {b : String} {other : TaskFile}
    (hrecv : RecipV d tid task pw) (hb : b ≠ tid)
    (hother : vlook d tid task pw b = some other) :
    RecipV d tid
      (if b ∈ task.blocks then task else { task with blocks := task.blocks ++ [b] })
      (writeTask pw b
        (if tid ∈ other.blocked_by then other
         else { other with blocked_by := other.blocked_by ++ [tid] })) := by
  set task2 := if b ∈ task.blocks then task
    else { task with blocks := task.blocks ++ [b] } with htask2
  set other2 := if tid ∈ other.blocked_by then other
    else { other with blocked_by := other.blocked_by ++ [tid] } with hother2
  have hvt : vlook d tid task pw tid = some task := by
    unfold vlook
    rw [if_pos rfl]
  have ht2blocks : ∀ x, x ∈ task2.blocks ↔ x ∈ task.blocks ∨ x = b := by
    intro x
    rw [htask2]
    by_cases hm : b ∈ task.blocks
    · rw [if_pos hm]
      constructor
      · exact Or.inl
      · rintro (h | rfl)
        · exact h
        · exact hm
    · rw [if_neg hm]
      simp
  have ht2bb : task2.blocked_by = task.blocked_by := by
    rw [htask2]
    by_cases hm : b ∈ task.blocks
    · rw [if_pos hm]
    · rw [if_neg hm]
  have ho2bb : ∀ x, x ∈ other2.blocked_by ↔ x ∈ other.blocked_by ∨ x = tid := by
    intro x
    rw [hother2]
    by_cases hm : tid ∈ other.blocked_by
    · rw [if_pos hm]
      constructor
      · exact Or.inl
      · rintro (h | rfl)
        · exact h
        · exact hm
    · rw [if_neg hm]
      simp
  have ho2bl : other2.blocks = other.blocks := by
    rw [hother2]
    by_cases hm : tid ∈ other.blocked_by
    · rw [if_pos hm]
    · rw [if_neg hm]
  intro p tp q tq hp hq
  rw [vlook_writeTask (t := task) hb] at hp hq
  by_cases hpt : p = tid
  · subst p
    rw [if_pos rfl] at hp
    injection hp with hp2
    subst tp
    by_cases hqt : q = tid
    · subst q
      rw [if_pos rfl] at hq
      injection hq with hq2
      subst tq
      rw [ht2bb, ht2blocks tid]
      have hold := hrecv tid task tid task hvt hvt
      constructor
      · intro h
        exact Or.inl (hold.mp h)
      · rintro (h | h)
        · exact hold.mpr h
        · exact absurd h.symm hb
    · rw [if_neg hqt] at hq
      by_cases hqb : q = b
      · subst q
        rw [if_pos rfl] at hq
        injection hq with hq2
        subst tq
        constructor
        · intro _
          exact (ht2blocks b).mpr (Or.inr rfl)
        · intro _
          exact (ho2bb tid).mpr (Or.inr rfl)
      · rw [if_neg hqb] at hq
        rw [ht2blocks q]
        have hold := hrecv tid task q tq hvt hq
        constructor
        · intro h
          exact Or.inl (hold.mp h)
        · rintro (h | h)
          · exact hold.mpr h
          · exact absurd h hqb
  · rw [if_neg hpt] at hp
    by_cases hpb : p = b
    · subst p
      rw [if_pos rfl] at hp
      injection hp with hp2
      subst tp
      by_cases hqt : q = tid
      · subst q
        rw [if_pos rfl] at hq
        injection hq with hq2
        subst tq
        rw [ht2bb, ho2bl]
        exact hrecv b other tid task hother hvt
      · rw [if_neg hqt] at hq
        by_cases hqb : q = b
        · subst q
          rw [if_pos rfl] at hq
          injection hq with hq2
          subst tq
          rw [ho2bb b, ho2bl]
          have hold := hrecv b other b other hother hother
          constructor
          · rintro (h | h)
            · exact hold.mp h
            · exact absurd h hb
          · intro h
            exact Or.inl (hold.mpr h)
        · rw [if_neg hqb] at hq
          rw [ho2bl]
          exact hrecv b other q tq hother hq
    · rw [if_neg hpb] at hp
      by_cases hqt : q = tid
      · subst q
        rw [if_pos rfl] at hq
        injection hq with hq2
        subst tq
        rw [ht2bb]
        exact hrecv p tp tid task hp hvt
      · rw [if_neg hqt] at hq
        by_cases hqb : q = b
        · subst q
          rw [if_pos rfl] at hq
          injection hq with hq2
          subst tq
          rw [ho2bb p]
          have hold := hrecv p tp b other hp hother
          constructor
          · rintro (h | h)
            · exact hold.mp h
            · exact absurd h hpt
          · intro h
            exact Or.inl (hold.mpr h)
        · rw [if_neg hqb] at hq
          exact hrecv p tp q tq hp hq

theorem recipV_addBlockedByEdge {d : TeamDir} {tid : String} {task : TaskFile}
    {pw : PendingWrites} {b : String} {other : TaskFile}
    (hrecv : RecipV d tid task pw) (hb : b ≠ tid)
    (hother : vlook d tid task pw b = some other) :
    RecipV d tid
      (if b ∈ task.blocked_by then task
       else { task with blocked_by := task.blocked_by ++ [b] })
      (writeTask pw b
        (if tid ∈ other.blocks then other
         else { other with blocks := other.blocks ++ [tid] })) := by
  set task2 := if b ∈ task.blocked_by then task
    else { task with blocked_by := task.blocked_by ++ [b] } with htask2
  set other2 := if tid ∈ other.blocks then other
    else { other with blocks := other.blocks ++ [tid] } with hother2
  have hvt : vlook d tid task pw tid = some task := by
    unfold vlook
    rw [if_pos rfl]
  have ht2bb : ∀ x, x ∈ task2.blocked_by ↔ x ∈ task.blocked_by ∨ x = b := by
    intro x
    rw [htask2]
    by_cases hm : b ∈ task.blocked_by
    · rw [if_pos hm]
      constructor
      · exact Or.inl
      · rintro (h | rfl)
        · exact h
        · exact hm
    · rw [if_neg hm]
      simp
  have ht2bl : task2.blocks = task.blocks := by
    rw [htask2]
    by_cases hm : b ∈ task.blocked_by
    · rw [if_pos hm]
    · rw [if_neg hm]
  have ho2bl : ∀ x, x ∈ other2.blocks ↔ x ∈ other.blocks ∨ x = tid := by
    intro x
    rw [hother2]
    by_cases hm : tid ∈ other.blocks
    · rw [if_pos hm]
      constructor
      · exact Or.inl
      · rintro (h | rfl)
        · exact h
        · exact hm
    · rw [if_neg hm]
      simp
  have ho2bb : other2.blocked_by = other.blocked_by := by
    rw [hother2]
    by_cases hm : tid ∈ other.blocks
    · rw [if_pos hm]
    · rw [if_neg hm]
  intro p tp q tq hp hq
  rw [vlook_writeTask (t := task) hb] at hp hq
  by_cases hpt : p = tid
  · subst p
    rw [if_pos rfl] at hp
    injection hp with hp2
    subst tp
    by_cases hqt : q = tid
    · subst q
      rw [if_pos rfl] at hq
      injection hq with hq2
      subst tq
      rw [ht2bl, ht2bb tid]
      have hold := hrecv tid task tid task hvt hvt
      constructor
      · rintro (h | h)
        · exact hold.mp h
        · exact absurd h.symm hb
      · intro h
        exact Or.inl (hold.mpr h)
    · rw [if_neg hqt] at hq
      by_cases hqb : q = b
      · subst q
        rw [if_pos rfl] at hq
        injection hq with hq2
        subst tq
        rw [ho2bb, ht2bl]
        exact hrecv tid task b other hvt hother
      · rw [if_neg hqb] at hq
        rw [ht2bl]
        exact hrecv tid task q tq hvt hq
  · rw [if_neg hpt] at hp
    by_cases hpb : p = b
    · subst p
      rw [if_pos rfl] at hp
      injection hp with hp2
      subst tp
      by_cases hqt : q = tid
      · subst q
        rw [if_pos rfl] at hq
        injection hq with hq2
        subst tq
        constructor
        · intro _
          exact (ho2bl tid).mpr (Or.inr rfl)
        · intro _
          exact (ht2bb b).mpr (Or.inr rfl)
      · rw [if_neg hqt] at hq
        by_cases hqb : q = b
        · subst q
          rw [if_pos rfl] at hq
          injection hq with hq2
          subst tq
          rw [ho2bb, ho2bl b]
          have hold := hrecv b other b other hother hother
          constructor
          · intro h
            exact Or.inl (hold.mp h)
          · rintro (h | h)
            · exact hold.mpr h
            · exact absurd h hb
        · rw [if_neg hqb] at hq
          rw [ho2bl q]
          have hold := hrecv b other q tq hother hq
          constructor
          · intro h
            exact Or.inl (hold.mp h)
          · rintro (h | h)
            · exact hold.mpr h
            · exact absurd h hqt
    · rw [if_neg hpb] at hp
      by_cases hqt : q = tid
      · subst q
        rw [if_pos rfl] at hq
        injection hq with hq2
        subst tq
        rw [ht2bb p]
        have hold := hrecv p tp tid task hp hvt
        constructor
        · rintro (h | h)
          · exact hold.mp h
          · exact absurd h hpb
        · intro h
          exact Or.inl (hold.mpr h)
      · rw [if_neg hqt] at hq
        by_cases hqb : q = b
        · subst q
          rw [if_pos rfl] at hq
          injection hq with hq2
          subst tq
          rw [ho2bb]
          exact hrecv p tp b other hp hother
        · rw [if_neg hqb] at hq
          exact hrecv p tp q tq hp hq

theorem checkRefs_none_neq {d : TeamDir} {tid selfMsg : String} :
    ∀ {l : List String}, checkRefs d tid selfMsg l = none → ∀ b ∈ l, b ≠ tid := by
  intro l
  induction l with
  | nil =>
    intro _ b hb
    simp at hb
  | cons b0 rest ih =>
    intro h b hb
    unfold checkRefs at h
    split at h
    · exact Option.noConfusion h
    · split at h
      · exact Option.noConfusion h
      · rcases List.mem_cons.mp hb with rfl | hmem
        · rename_i hne _
          exact hne
        · exact ih h b hmem

theorem applyAddBlocks_recipV (d : TeamDir) (tid : String) :
    ∀ (bs : List String) (task : TaskFile) (pw : PendingWrites)
      (res : TaskFile × PendingWrites),
      applyAddBlocks d tid bs task pw = .ok res →
      (∀ b ∈ bs, b ≠ tid) →
      RecipV d tid task pw →
      RecipV d tid res.1 res.2 := by
  intro bs
  induction bs with
  | nil =>
    intro task pw res h _ hr
    unfold applyAddBlocks at h
    injection h with h2
    rw [← h2]
    exact hr
  | cons b rest ih =>
    intro task pw res h hne hr
    unfold applyAddBlocks at h
    dsimp only at h
    cases hov : (match readTask pw b with
        | some o => some o
        | none => readTask d b) with
    | none =>
      rw [hov] at h
      exact absurd h (by simp)
    | some other =>
      rw [hov] at h
      dsimp only at h
      have hb : b ≠ tid := hne b (List.mem_cons_self ..)
      have hother : vlook d tid task pw b = some other := by
        unfold vlook
        rw [if_neg hb]
        exact hov
      exact ih _ _ res h (fun x hx => hne x (List.mem_cons_of_mem _ hx))
        (recipV_addBlockEdge hr hb hother)

theorem applyAddBlockedBy_recipV (d : TeamDir) (tid : String) :
    ∀ (bs : List String) (task : TaskFile) (pw : PendingWrites)
      (res : TaskFile × PendingWrites),
      applyAddBlockedBy d tid bs task pw = .ok res →
      (∀ b ∈ bs, b ≠ tid) →
      RecipV d tid task pw →
      RecipV d tid res.1 res.2 := by
  intro bs
  induction bs with
  | nil =>
    intro task pw res h _ hr
    unfold applyAddBlockedBy at h
    injection h with h2
    rw [← h2]
    exact hr
  | cons b rest ih =>
    intro task pw res h hne hr
    unfold applyAddBlockedBy at h
    dsimp only at h
    cases hov : (match readTask pw b with
        | some o => some o
        | none => readTask d b) with
    | none =>
      rw [hov] at h
      exact absurd h (by simp)
    | some other =>
      rw [hov] at h
      dsimp only at h
      have hb : b ≠ tid := hne b (List.mem_cons_self ..)
      have hother : vlook d tid task pw b = some other := by
        unfold vlook
        rw [if_neg hb]
        exact hov
      exact ih _ _ res h (fun x hx => hne x (List.mem_cons_of_mem _ hx))
        (recipV_addBlockedByEdge hr hb hother)

theorem writeTask_key_facts {pw : PendingWrites} {b : String} {o : TaskFile}
    (hnd : (dirKeys pw).Nodup) :
    (dirKeys (writeTask pw b o)).Nodup
    ∧ ∀ k, k ∈ dirKeys (writeTask pw b o) → k ∈ dirKeys pw ∨ k = b := by
  refine ⟨dirKeys_writeTask_nodup _ _ _ hnd, ?_⟩
  intro k hk
  rw [dirKeys_writeTask] at hk
  by_cases hm : b ∈ dirKeys pw
  · rw [if_pos hm] at hk
    exact Or.inl hk
  · rw [if_neg hm] at hk
    rcases List.mem_append.mp hk with h | h
    · exact Or.inl h
    · simp at h
      exact Or.inr h

theorem applyAddBlocks_pw_facts (d : TeamDir) (tid : String) :
    ∀ (bs : List String) (task : TaskFile) (pw : PendingWrites)
      (res : TaskFile × PendingWrites),
      applyAddBlocks d tid bs task pw = .ok res →
      (dirKeys pw).Nodup →
      (dirKeys res.2).Nodup
      ∧ (∀ k, k ∈ dirKeys res.2 → k ∈ dirKeys pw ∨ k ∈ bs) := by
  intro bs
  induction bs with
  | nil =>
    intro task pw res h hnd
    unfold applyAddBlocks at h
    injection h with h2
    rw [← h2]
    exact ⟨hnd, fun k hk => Or.inl hk⟩
  | cons b rest ih =>
    intro task pw res h hnd
    unfold applyAddBlocks at h
    dsimp only at h
    cases hov : (match readTask pw b with
        | some o => some o
        | none => readTask d b) with
    | none =>
      rw [hov] at h
      exact absurd h (by simp)
    | some other =>
      rw [hov] at h
      dsimp only at h
      obtain ⟨hnd2, hsub2⟩ := writeTask_key_facts (b := b)
        (o := if tid ∈ other.blocked_by then other
          else { other with blocked_by := other.blocked_by ++ [tid] }) hnd
      obtain ⟨hnd3, hsub3⟩ := ih _ _ res h hnd2
      refine ⟨hnd3, ?_⟩
      intro k hk
      rcases hsub3 k hk with h2 | h2
      · rcases hsub2 k h2 with h3 | h3
        · exact Or.inl h3
        · exact Or.inr (h3 ▸ List.mem_cons_self ..)
      · exact Or.inr (List.mem_cons_of_mem _ h2)

theorem applyAddBlockedBy_pw_facts (d : TeamDir) (tid : String) :
    ∀ (bs : List String) (task : TaskFile) (pw : PendingWrites)
      (res : TaskFile × PendingWrites),
      applyAddBlockedBy d tid bs task pw = .ok res →
      (dirKeys pw).Nodup →
      (dirKeys res.2).Nodup
      ∧ (∀ k, k ∈ dirKeys res.2 → k ∈ dirKeys pw ∨ k ∈ bs) := by
  intro bs
  induction bs with
  | nil =>
    intro task pw res h hnd
    unfold applyAddBlockedBy at h
    injection h with h2
    rw [← h2]
    exact ⟨hnd, fun k hk => Or.inl hk⟩
  | cons b rest ih =>
    intro task pw res h hnd
    unfold applyAddBlockedBy at h
    dsimp only at h
    cases hov : (match readTask pw b with
        | some o => some o
        | none => readTask d b) with
    | none =>
      rw [hov] at h
      exact absurd h (by simp)
    | some other =>
      rw [hov] at h
      dsimp only at h
      obtain ⟨hnd2, hsub2⟩ := writeTask_key_facts (b := b)
        (o := if tid ∈ other.blocks then other
          else { other with blocks := other.blocks ++ [tid] }) hnd
      obtain ⟨hnd3, hsub3⟩ := ih _ _ res h hnd2
      refine ⟨hnd3, ?_⟩
      intro k hk
      rcases hsub3 k hk with h2 | h2
      · rcases hsub2 k h2 with h3 | h3
        · exact Or.inl h3
        · exact Or.inr (h3 ▸ List.mem_cons_self ..)
      · exact Or.inr (List.mem_cons_of_mem _ h2)

theorem readTask_final_vlook {d : TeamDir} {tid : String} {t : TaskFile}
    {pw : PendingWrites} (hnd : (dirKeys pw).Nodup) (htid : tid ∉ dirKeys pw)
    (k : String) :
    readTask (applyOps d (FsOp.write tid t :: pwOps pw)) k = vlook d tid t pw k := by
  have hsplit : applyOps d (FsOp.write tid t :: pwOps pw)
      = applyOps (writeTask d tid t) (pwOps pw) := rfl
  rw [hsplit, readTask_applyPW _ _ hnd k]
  unfold vlook
  by_cases hk : k = tid
  · subst k
    rw [readTask_eq_none htid]
    dsimp only
    rw [readTask_writeTask, if_pos rfl]
  · rw [if_neg hk]
    cases hp : readTask pw k with
    | some v => rfl
    | none =>
      dsimp only
      rw [readTask_writeTask, if_neg hk]

theorem recipB_final_write {d : TeamDir} {tid : String} {t : TaskFile}
    {pw : PendingWrites} (hndd : (dirKeys d).Nodup)
    (hnd : (dirKeys pw).Nodup) (htid : tid ∉ dirKeys pw)
    (hr : RecipV d tid t pw) :
    reciprocalB (applyOps d (FsOp.write tid t :: pwOps pw)) = true := by
  apply reciprocalB_of_reciprocal
  · have hsplit : applyOps d (FsOp.write tid t :: pwOps pw)
        = applyOps (writeTask d tid t) (pwOps pw) := rfl
    rw [hsplit]
    exact dirKeys_applyPW_nodup _ _ (dirKeys_writeTask_nodup d tid t hndd)
  · intro a ta b tb ha hb
    rw [readTask_final_vlook hnd htid] at ha hb
    exact hr a ta b tb ha hb

theorem recipB_final_deleted {d : TeamDir} {tid : String} {t : TaskFile}
    {pw : PendingWrites} (hndd : (dirKeys d).Nodup)
    (hnd : (dirKeys pw).Nodup)
    (hsub : ∀ k, k ∈ dirKeys pw → k ∈ dirKeys d)
    (hr : RecipV d tid t pw) :
    reciprocalB (applyOps d (pwOps (deletedCascade tid pw d) ++ [FsOp.unlink tid]))
      = true := by
  have hfinal : applyOps d (pwOps (deletedCascade tid pw d) ++ [FsOp.unlink tid])
      = unlinkTask (applyOps d (pwOps (deletedCascade tid pw d))) tid := by
    rw [applyOps_append]
    rfl
  rw [hfinal]
  have hnd3 : (dirKeys (deletedCascade tid pw d)).Nodup :=
    dirKeys_deletedCascade_nodup tid d pw hnd
  apply reciprocalB_of_reciprocal
  · exact dirKeys_unlink_nodup _ tid (dirKeys_applyPW_nodup d _ hndd)
  have hconv : ∀ k v, k ≠ tid →
      readTask (unlinkTask (applyOps d (pwOps (deletedCascade tid pw d))) tid) k
        = some v →
      ∃ v0, vlook d tid t pw k = some v0
        ∧ (∀ x, x ≠ tid → (x ∈ v.blocked_by ↔ x ∈ v0.blocked_by))
        ∧ (∀ x, x ≠ tid → (x ∈ v.blocks ↔ x ∈ v0.blocks)) := by
    intro k v hk hv
    rw [readTask_unlinkTask, if_neg hk, readTask_applyPW d _ hnd3 k] at hv
    have hchar := readTask_deletedCascade tid d pw k hndd
    cases hdk : readTask d k with
    | none =>
      have hpwk : readTask pw k = none := by
        cases hpw : readTask pw k with
        | none => rfl
        | some w =>
          obtain ⟨t2, ht2⟩ := readTask_isSome_of_mem (hsub k (mem_dirKeys_of_readTask hpw))
          rw [ht2] at hdk
          exact Option.noConfusion hdk
      rw [hdk] at hchar
      dsimp only at hchar
      rw [hchar, hpwk] at hv
      dsimp only at hv
      rw [hdk] at hv
      exact Option.noConfusion hv
    | some t0 =>
      rw [hdk] at hchar
      dsimp only at hchar
      have hvl : vlook d tid t pw k = some ((readTask pw k).getD t0) := by
        unfold vlook
        rw [if_neg hk]
        cases hpw : readTask pw k with
        | some w => rfl
        | none =>
          dsimp only [Option.getD]
          exact hdk
      have hfall : (match readTask pw k with
          | some w => some w
          | none => readTask d k) = some ((readTask pw k).getD t0) := by
        cases hpw : readTask pw k with
        | some w => rfl
        | none =>
          dsimp only [Option.getD]
          exact hdk
      by_cases hskip : (!pyNumericId k || k = tid) = true
      · rw [if_pos hskip] at hchar
        rw [hchar] at hv
        rw [hfall] at hv
        injection hv with hv2
        refine ⟨(readTask pw k).getD t0, hvl, ?_, ?_⟩
        · intro x _
          rw [← hv2]
        · intro x _
          rw [← hv2]
      · rw [if_neg hskip] at hchar
        by_cases hch : tid ∈ ((readTask pw k).getD t0).blocked_by
            ∨ tid ∈ ((readTask pw k).getD t0).blocks
        · rw [if_pos hch] at hchar
          rw [hchar] at hv
          dsimp only at hv
          injection hv with hv2
          refine ⟨(readTask pw k).getD t0, hvl, ?_, ?_⟩
          · intro x hx
            rw [← hv2]
            unfold stripBoth
            exact List.mem_erase_of_ne hx
          · intro x hx
            rw [← hv2]
            unfold stripBoth
            exact List.mem_erase_of_ne hx
        · rw [if_neg hch] at hchar
          rw [hchar] at hv
          rw [hfall] at hv
          injection hv with hv2
          refine ⟨(readTask pw k).getD t0, hvl, ?_, ?_⟩
          · intro x _
            rw [← hv2]
          · intro x _
            rw [← hv2]
  intro a ta b tb ha hb
  by_cases hat : a = tid
  · subst a
    rw [readTask_unlinkTask, if_pos rfl] at ha
    exact Option.noConfusion ha
  by_cases hbt : b = tid
  · subst b
    rw [readTask_unlinkTask, if_pos rfl] at hb
    exact Option.noConfusion hb
  obtain ⟨ta0, hta0, htabb, htabl⟩ := hconv a ta hat ha
  obtain ⟨tb0, htb0, htbbb, htbbl⟩ := hconv b tb hbt hb
  rw [htbbb a hat, htabl b hbt]
  exact hr a ta0 b tb0 hta0 htb0

theorem memAdd_of_add_blocks {d : TeamDir} {tid selfMsg k : String} :
    ∀ {l : List String}, k ∈ l → checkRefs d tid selfMsg l = none → k ∈ dirKeys d := by
  intro l
  induction l with
  | nil =>
    intro hk _
    simp at hk
  | cons b0 rest ih =>
    intro hk h
    unfold checkRefs at h
    split at h
    · exact Option.noConfusion h
    · split at h
      · exact Option.noConfusion h
      · rcases List.mem_cons.mp hk with rfl | hmem
        · rename_i hiss
          cases hr : readTask d k with
          | none => rw [hr] at hiss; simp at hiss
          | some t => exact mem_dirKeys_of_readTask hr
        · exact ih hmem h

theorem update_ok_inversion {d : TeamDir} {tid : String} {a : UpdateArgs}
    {t5 : TaskFile} {ops : List FsOp}
    (h : update_task d tid a = .ok (t5, ops)) :
    ∃ task task2 pw1 task3 pw2,
      readTask d tid = some task
      ∧ validatePhase d tid task a = none
      ∧ applyAddBlocks d tid (truthyList a.add_blocks) (applyFieldArgs task a) []
          = .ok (task2, pw1)
      ∧ applyAddBlockedBy d tid (truthyList a.add_blocked_by) task2 pw1
          = .ok (task3, pw2)
      ∧ ((a.status = none
            ∧ t5 = applyMetadata task3 a
            ∧ ops = FsOp.write tid t5 :: pwOps pw2)
        ∨ (∃ s, a.status = some s ∧ s ≠ "deleted"
            ∧ t5 = { applyMetadata task3 a with status := s }
            ∧ ops = FsOp.write tid t5
                :: pwOps (if s = "completed" then completedCascade tid pw2 d else pw2))
        ∨ (a.status = some "deleted"
            ∧ t5 = { applyMetadata task3 a with status := "deleted" }
            ∧ ops = pwOps (deletedCascade tid pw2 d) ++ [FsOp.unlink tid])) := by
  unfold update_task at h
  cases hr : readTask d tid with
  | none =>
    rw [hr] at h
    exact absurd h (by simp)
  | some task =>
    rw [hr] at h
    dsimp only at h
    cases hv : validatePhase d tid task a with
    | some e =>
      rw [hv] at h
      exact absurd h (by simp)
    | none =>
      rw [hv] at h
      dsimp only at h
      cases hab : applyAddBlocks d tid (truthyList a.add_blocks)
          (applyFieldArgs task a) [] with
      | error e =>
        rw [hab] at h
        exact absurd h (by simp)
      | ok r1 =>
        obtain ⟨task2, pw1⟩ := r1
        rw [hab] at h
        dsimp only at h
        cases habb : applyAddBlockedBy d tid (truthyList a.add_blocked_by) task2 pw1 with
        | error e =>
          rw [habb] at h
          exact absurd h (by simp)
        | ok r2 =>
          obtain ⟨task3, pw2⟩ := r2
          rw [habb] at h
          dsimp only at h
          refine ⟨task, task2, pw1, task3, pw2, rfl, hv, hab, habb, ?_⟩
          cases hs : a.status with
          | none =>
            rw [hs] at h
            dsimp only at h
            injection h with h2
            injection h2 with h3 h4
            exact Or.inl ⟨rfl, h3.symm, by rw [h4.symm, h3]⟩
          | some s =>
            rw [hs] at h
            dsimp only at h
            by_cases hsd : s = "deleted"
            · subst s
              rw [if_pos rfl] at h
              injection h with h2
              injection h2 with h3 h4
              exact Or.inr (Or.inr ⟨rfl, h3.symm, h4.symm⟩)
            · rw [if_neg hsd] at h
              injection h with h2
              injection h2 with h3 h4
              exact Or.inr (Or.inl ⟨s, rfl, hsd, h3.symm, by rw [h4.symm, h3]⟩)

/-- C1, counterexample: tasks `1` (blocks `2`) and `2` (blocked by `1`)
satisfy reciprocity, but completing task `1` strips `1` from `2`'s
`blocked_by` while leaving `1.blocks = ["2"]` on disk, breaking
`a ∈ b.blocked_by ↔ b ∈ a.blocks` for the pair `(1, 2)`. -/
theorem c1_counterexample :
    reciprocalB c1d = true
    ∧ (∃ r, update_task c1d "1" { status := some "completed" } = .ok r)
    ∧ reciprocalB (update_task_run c1d "1" { status := some "completed" }) = false := by
  refine ⟨by decide, ⟨_, rfl⟩, by decide⟩

/-- C1, amended: reciprocity (`a ∈ b.blocked_by ↔ b ∈ a.blocks` over all
pairs of task files on disk) is preserved by every successful
`update_task` call whose status argument is not `"completed"` — including
edge additions, field updates, metadata merges and the `deleted` cascade.
The `completed` cascade is the exception the counterexample exhibits: it
strips the completed task's id from every sibling's `blocked_by` but
leaves the completed task's own `blocks` list unchanged. -/
theorem c1_reciprocity_preserved (d : TeamDir) (tid : String) (a : UpdateArgs)
    (hnd : (dirKeys d).Nodup)
    (hrec : reciprocalB d = true)
    (hst : a.status ≠ some "completed") :
    reciprocalB (update_task_run d tid a) = true := by
  cases hu : update_task d tid a with
  | error e =>
    unfold update_task_run
    rw [hu]
    exact hrec
  | ok res =>
    obtain ⟨t5, ops⟩ := res
    unfold update_task_run
    rw [hu]
    dsimp only
    obtain ⟨task, task2, pw1, task3, pw2, hread, hval, hab, habb, hcase⟩ :=
      update_ok_inversion hu
    have hvparts : checkRefs d tid (msgSelfBlock tid) (truthyList a.add_blocks) = none
        ∧ checkRefs d tid (msgSelfBlockedBy tid) (truthyList a.add_blocked_by) = none := by
      unfold validatePhase at hval
      dsimp only at hval
      obtain ⟨h1, hval⟩ := orErr_eq_none hval
      obtain ⟨h2, -⟩ := orErr_eq_none hval
      exact ⟨h1, h2⟩
    have hneqAB : ∀ b ∈ truthyList a.add_blocks, b ≠ tid :=
      checkRefs_none_neq hvparts.1
    have hneqABB : ∀ b ∈ truthyList a.add_blocked_by, b ≠ tid :=
      checkRefs_none_neq hvparts.2
    have hrecP : Reciprocal d := reciprocal_of_reciprocalB hrec
    have hv0 : RecipV d tid (applyFieldArgs task a) [] :=
      recipV_congr (applyFieldArgs_edges task a).1 (applyFieldArgs_edges task a).2
        (recipV_of_reciprocal hread hrecP)
    have hv1 : RecipV d tid task2 pw1 :=
      applyAddBlocks_recipV d tid _ _ _ (task2, pw1) hab hneqAB hv0
    have hv2 : RecipV d tid task3 pw2 :=
      applyAddBlockedBy_recipV d tid _ _ _ (task3, pw2) habb hneqABB hv1
    obtain ⟨hnd1, hsub1⟩ :=
      applyAddBlocks_pw_facts d tid _ _ _ (task2, pw1) hab List.nodup_nil
    obtain ⟨hnd2, hsub2⟩ :=
      applyAddBlockedBy_pw_facts d tid _ _ _ (task3, pw2) habb hnd1
    have htid2 : tid ∉ dirKeys pw2 := by
      intro hmem
      rcases hsub2 tid hmem with h2 | h2
      · rcases hsub1 tid h2 with h3 | h3
        · simp [dirKeys] at h3
        · exact hneqAB tid h3 rfl
      · exact hneqABB tid h2 rfl
    rcases hcase with ⟨hnone, ht5, hops⟩ | ⟨s, hs, hsd, ht5, hops⟩ | ⟨hdel, ht5, hops⟩
    · rw [hops]
      have hv5 : RecipV d tid t5 pw2 := by
        rw [ht5]
        exact recipV_congr (applyMetadata_edges task3 a).1 (applyMetadata_edges task3 a).2
          hv2
      exact recipB_final_write hnd hnd2 htid2 hv5
    · have hsc : s ≠ "completed" := by
        rintro rfl
        exact hst hs
      rw [hops, if_neg hsc]
      have hv5 : RecipV d tid t5 pw2 := by
        rw [ht5]
        exact recipV_congr (applyMetadata_edges task3 a).1 (applyMetadata_edges task3 a).2
          hv2
      exact recipB_final_write hnd hnd2 htid2 hv5
    · rw [hops]
      have hsubd : ∀ k, k ∈ dirKeys pw2 → k ∈ dirKeys d := by
        intro k hk
        rcases hsub2 k hk with h2 | h2
        · rcases hsub1 k h2 with h3 | h3
          · simp [dirKeys] at h3
          · exact memAdd_of_add_blocks h3 hvparts.1
        · exact memAdd_of_add_blocks h2 hvparts.2
      exact recipB_final_deleted hnd hnd2 hsubd hv2

/-- C1 witness: a concrete non-completed call (task `1` to `in_progress`
on the reciprocal two-task directory) keeps reciprocity. -/
theorem c1_witness :
    (dirKeys c1d).Nodup ∧ reciprocalB c1d = true
    ∧ (some "in_progress" : Option String) ≠ some "completed"
    ∧ reciprocalB (update_task_run c1d "1" { status := some "in_progress" }) = true :=
  ⟨by decide, by decide, by decide,
    c1_reciprocity_preserved c1d "1" { status := some "in_progress" }
      (by decide) (by decide) (by decide)⟩

end ClaudeTeams
